import Mathlib

/-!
Verification development for the poiahead backend core:
the route distance calculator (`Backend/route_calculator.py`),
the Overpass acquisition client (`Backend/overpass_client.py`) and
its deduplication engine.  Python floats are embedded as `ℚ` for data
that is parsed or configured, and as `ℝ` for values produced by the
great-circle distance (which uses transcendental functions).  The HTTP
layer is embedded as an oracle mapping (endpoint url, attempt number)
to a response outcome.
-/

/-! ## String helpers (Python `str.lower`, `in`, `strip`, `split`)

These are implemented over `List Char` so that concrete runs reduce in
the kernel. -/

/-- Python `str.lower()` restricted to ASCII case mapping. -/
def charsLower (l : List Char) : List Char := l.map Char.toLower

/-- Python `str.strip()`: drop whitespace from both ends. -/
def trimChars (l : List Char) : List Char :=
  ((l.dropWhile Char.isWhitespace).reverse.dropWhile Char.isWhitespace).reverse

/-- Python `str.split(sep)` for a one-character separator. -/
def splitOnSemi : List Char → List (List Char)
  | [] => [[]]
  | c :: rest =>
    if c = ';' then [] :: splitOnSemi rest
    else
      match splitOnSemi rest with
      | h :: t => (c :: h) :: t
      | [] => [[c]]

/-- Python substring containment `pat in s`. -/
def charsContain (s pat : List Char) : Bool :=
  s.tails.any (fun t => pat.isPrefixOf t)

/-! ## `OverpassClient.is_24_7` (overpass_client.py lines 564-578) -/

/-- The fixed list of 24/7-equivalent phrasings checked by `is_24_7`. -/
def patterns_24_7 : List String :=
  ["24/7", "24/24", "always open", "mo-su 00:00-24:00", "24 hours", "24h"]

/-- `is_24_7`: false on an absent or empty (falsy) string, else substring
check of each pattern against the lowercased string. -/
def is_24_7 : Option String → Bool
  | none => false
  | some s =>
    if s = "" then false
    else patterns_24_7.any (fun p => charsContain (charsLower s.data) p.data)

/-! ## The opening-hours clause regex

The code searches `([a-z]{2})-([a-z]{2})\s+(\d{1,2}):(\d{2})-(\d{1,2}):(\d{2})`
with `re.search` (leftmost match).  The only backtracking points of this
pattern are the two `\d{1,2}` groups; since the character after each is
`:` (never a digit), the greedy-with-backtracking semantics is the
deterministic rule implemented below.  `\s` is embedded as
`Char.isWhitespace` (space, tab, CR, LF). -/

/-- Character class `[a-z]`. -/
def isLowerAlpha (c : Char) : Bool := decide ('a' ≤ c) && decide (c ≤ 'z')

/-- Numeric value of a digit character. -/
def digitVal (c : Char) : ℕ := c.toNat - '0'.toNat

/-- Match `(\d{1,2}):(\d{2})` at the head of the list, returning the hour
value, the minute value and the rest of the input. -/
def matchTime : List Char → Option (ℕ × ℕ × List Char)
  | a :: b :: rest =>
    if a.isDigit && b.isDigit then
      match rest with
      | ':' :: m1 :: m2 :: r2 =>
        if m1.isDigit && m2.isDigit then
          some (10 * digitVal a + digitVal b, 10 * digitVal m1 + digitVal m2, r2)
        else none
      | _ => none
    else if a.isDigit && b == ':' then
      match rest with
      | m1 :: m2 :: r2 =>
        if m1.isDigit && m2.isDigit then
          some (digitVal a, 10 * digitVal m1 + digitVal m2, r2)
        else none
      | _ => none
    else none
  | _ => none

/-- The six captured groups of one matched clause. -/
structure ClauseMatch where
  d1 : String
  d2 : String
  sh : ℕ
  sm : ℕ
  eh : ℕ
  em : ℕ
deriving DecidableEq

/-- Match the whole clause pattern anchored at the head of the list. -/
def matchAt : List Char → Option ClauseMatch
  | a :: b :: '-' :: c :: d :: rest =>
    if isLowerAlpha a && isLowerAlpha b && isLowerAlpha c && isLowerAlpha d then
      if (rest.takeWhile Char.isWhitespace).isEmpty then none
      else
        match matchTime (rest.dropWhile Char.isWhitespace) with
        | some (sh, sm, r3) =>
          match r3 with
          | '-' :: r4 =>
            match matchTime r4 with
            | some (eh, em, _) => some ⟨String.mk [a, b], String.mk [c, d], sh, sm, eh, em⟩
            | none => none
          | _ => none
        | none => none
    else none
  | _ => none

/-- `re.search` for the clause pattern: try each start position left to
right. -/
def searchClause : List Char → Option ClauseMatch
  | [] => none
  | a :: rest =>
    match matchAt (a :: rest) with
    | some m => some m
    | none => searchClause rest

/-! ## `calculate_opening_hours_duration` (overpass_client.py lines 580-687) -/

/-- `day_patterns.get(s, 0)` of the code (mo=1 .. su=7, unknown=0). -/
def dayIndex (s : String) : ℕ :=
  if s = "mo" then 1 else if s = "tu" then 2 else if s = "we" then 3 else if s = "th" then 4
  else if s = "fr" then 5 else if s = "sa" then 6 else if s = "su" then 7 else 0

/-- `hour + minute / 60.0` as an exact rational. -/
def timeQ (h m : ℕ) : ℚ := (h : ℚ) + (m : ℚ) / 60

/-- Number of covered days: `end_day - start_day + 1`, wrapping past the
end of the week when `end_day < start_day`. -/
def numDaysVal (sd ed : ℕ) : ℕ := if sd ≤ ed then ed - sd + 1 else (7 - sd + 1) + ed

/-- Hours per day of one clause: overnight spans (end before start) wrap
past midnight. -/
def hoursPerDay (startT endT : ℚ) : ℚ :=
  if endT < startT then (24 - startT) + endT else endT - startT

/-- Hours contributed by one matched clause, `none` when either day code
is unknown (`day_patterns.get` returned 0). -/
def clauseHours (m : ClauseMatch) : Option ℚ :=
  let sd := dayIndex m.d1
  let ed := dayIndex m.d2
  if 0 < sd ∧ 0 < ed then
    some ((numDaysVal sd ed : ℚ) * hoursPerDay (timeQ m.sh m.sm) (timeQ m.eh m.em))
  else none

/-- Hours contributed by one semicolon-separated part in the summation
branch: strip, skip empty, search the pattern, add only valid-day
matches. -/
def partHours (p : List Char) : ℚ :=
  let p := trimChars p
  if p.isEmpty then 0
  else
    match searchClause p with
    | some m => (clauseHours m).getD 0
    | none => 0

/-- The semicolon-summation branch: sum the parts, return
`min total 168` when the total is positive, else 0. -/
def sumParts (s : List Char) : ℚ :=
  let total := ((splitOnSemi s).map partHours).foldl (· + ·) 0
  if 0 < total then min total 168 else 0

/-- `calculate_opening_hours_duration`: 0 on falsy input; 168 on a 24/7
phrasing; else search the lowered+stripped string for one clause — a
match with valid day codes returns that single clause total (uncapped);
otherwise fall through to the capped semicolon summation. -/
def calculate_opening_hours_duration (oh : Option String) : ℚ :=
  match oh with
  | none => 0
  | some s0 =>
    if s0 = "" then 0
    else if is_24_7 (some s0) then 168
    else
      let s := trimChars (charsLower s0.data)
      match searchClause s with
      | some m =>
        match clauseHours m with
        | some h => h
        | none => sumParts s
      | none => sumParts s

/-! ## Great-circle distance

`route_calculator.py` and `deduplicate_pois` both call the external
`haversine` library, which converts the degree coordinates to radians
and evaluates the standard haversine formula with the mean earth radius
6371.0088 km.  Coordinates are `ℚ`; the value lives in `ℝ` because of
the transcendental functions. -/

noncomputable def earth_radius_km : ℝ := 6371.0088

/-- Degrees to radians. -/
noncomputable def deg2rad (d : ℚ) : ℝ := (d : ℝ) * Real.pi / 180

/-- The haversine great-circle distance in km between two
(latitude, longitude) degree coordinates. -/
noncomputable def haversineKm (lat1 lon1 lat2 lon2 : ℚ) : ℝ :=
  2 * earth_radius_km *
    Real.arcsin (Real.sqrt
      (Real.sin ((deg2rad lat2 - deg2rad lat1) / 2) ^ 2 +
        Real.cos (deg2rad lat1) * Real.cos (deg2rad lat2) *
          Real.sin ((deg2rad lon2 - deg2rad lon1) / 2) ^ 2))

/-! ## Route model (route_storage.py) and route calculator (route_calculator.py) -/

/-- A single geographical point of a route. -/
structure RoutePoint where
  lat : ℚ
  lon : ℚ
deriving DecidableEq

instance : Inhabited RoutePoint := ⟨⟨0, 0⟩⟩

/-- A route: the ordered point list.  The R-tree spatial index of
`route_storage.py` is embedded through `find_nearest_route_point_index`
below; id, raw GPX bytes and filename play no role in the verified
logic. -/
structure Route where
  points : List RoutePoint
deriving DecidableEq

/-- `RouteCalculator.haversine_distance`. -/
noncomputable def haversine_distance (p q : RoutePoint) : ℝ :=
  haversineKm p.lat p.lon q.lat q.lon

/-- Squared Euclidean distance in (lon, lat) degree space — the metric
of the R-tree index built by `RouteStorage.store`, which inserts the
degenerate rectangle `(lon, lat, lon, lat)` for each point.  The
squared distance has the same minimizers as the distance itself. -/
def sqDegDist (p q : RoutePoint) : ℚ := (p.lon - q.lon) ^ 2 + (p.lat - q.lat) ^ 2

/-- Linear scan computing the index of the point nearest to `pt`
(first index on ties; the R-tree may resolve ties to any nearest entry,
and the spec allows any choice). -/
def nearestAux (pt : RoutePoint) : List RoutePoint → ℕ → ℕ → ℚ → ℕ
  | [], _, besti, _ => besti
  | p :: rest, i, besti, bestd =>
    if sqDegDist pt p < bestd then nearestAux pt rest (i + 1) i (sqDegDist pt p)
    else nearestAux pt rest (i + 1) besti bestd

/-- `RouteCalculator.find_nearest_route_point_index`: nearest-neighbor
query against the route R-tree.  A route is non-empty by the Route
invariant; the 0 returned for an empty route is a total-function
default (the Python code would raise there). -/
def find_nearest_route_point_index (route : Route) (pt : RoutePoint) : ℕ :=
  match route.points with
  | [] => 0
  | p :: rest => nearestAux pt rest 1 0 (sqDegDist pt p)

/-- `route.points[i]` as a total function. -/
def pointAt (route : Route) (i : ℕ) : RoutePoint := route.points.getD i ⟨0, 0⟩

/-- `RouteCalculator.calculate_distance_on_route`: locate the nearest
route point index, then accumulate the haversine distances of the
consecutive point pairs before it. -/
noncomputable def calculate_distance_on_route (route : Route) (pt : RoutePoint) : ℝ :=
  (List.range (find_nearest_route_point_index route pt)).foldl
    (fun acc i => acc + haversine_distance (pointAt route i) (pointAt route (i + 1))) 0

/-- Total length of a route: the distance on route up to its last point. -/
noncomputable def total_route_length (route : Route) : ℝ :=
  (List.range (route.points.length - 1)).foldl
    (fun acc i => acc + haversine_distance (pointAt route i) (pointAt route (i + 1))) 0

/-! ## POI record (poi.py) -/

/-- The POI dataclass. -/
structure POI where
  lat : ℚ
  lon : ℚ
  name : String
  distance_to_route : ℝ
  distance_on_route : ℝ
  poi_type : String
  opening_hours : Option String := none
  url : Option String := none
  google_maps_link : String := ""
  price_range : Option String := none
  brand : Option String := none
  operator : Option String := none
  wikipedia : Option String := none
  wikidata : Option String := none

/-- Python truthiness of an optional string: `None` and `""` are falsy. -/
def truthyStr : Option String → Bool
  | none => false
  | some s => !(s == "")

/-- Python `a or b` on optional strings: `a` when truthy, else `b`. -/
def orOpt (a b : Option String) : Option String := if truthyStr a then a else b

/-! ## POI type configuration table (overpass_client.py lines 11-52) -/

/-- One entry of `POI_TYPE_CONFIG`: the category key, its Overpass query
template and the default display name for unnamed elements. -/
structure PoiTypeEntry where
  key : String
  query : String
  default_name : String

/-- The full configuration table, in source order. -/
def POI_TYPE_CONFIG : List PoiTypeEntry :=
  [⟨"public_toilets",
    "node[amenity=toilets]({south},{west},{north},{east}); way[amenity=toilets]({south},{west},{north},{east});",
    "Unnamed Toilet"⟩,
   ⟨"bakeries",
    "node[shop=bakery]({south},{west},{north},{east}); way[shop=bakery]({south},{west},{north},{east}); node[amenity=bakery]({south},{west},{north},{east}); way[amenity=bakery]({south},{west},{north},{east});",
    "Unnamed Bakery"⟩,
   ⟨"gas_stations",
    "node[amenity=fuel]({south},{west},{north},{east}); way[amenity=fuel]({south},{west},{north},{east}); node[shop=fuel]({south},{west},{north},{east}); way[shop=fuel]({south},{west},{north},{east});",
    "Unnamed Gas Station"⟩,
   ⟨"grocery_stores",
    "node[shop~supermarket|convenience|grocery]({south},{west},{north},{east}); way[shop~supermarket|convenience|grocery]({south},{west},{north},{east});",
    "Unnamed Grocery Store"⟩,
   ⟨"water_fountains",
    "node[amenity~drinking_water|fountain]({south},{west},{north},{east}); way[amenity~drinking_water|fountain]({south},{west},{north},{east});",
    "Unnamed Water Fountain"⟩,
   ⟨"bicycle_shops",
    "node[shop=bicycle]({south},{west},{north},{east}); way[shop=bicycle]({south},{west},{north},{east}); node[service=bicycle_repair]({south},{west},{north},{east}); way[service=bicycle_repair]({south},{west},{north},{east});",
    "Unnamed Bicycle Shop"⟩,
   ⟨"bicycle_vending",
    "node[amenity=bicycle_rental][vending]({south},{west},{north},{east}); way[amenity=bicycle_rental][vending]({south},{west},{north},{east});",
    "Unnamed Bicycle Vending"⟩,
   ⟨"vending_machines",
    "node[amenity=vending_machine][vending~drinks|food]({south},{west},{north},{east}); way[amenity=vending_machine][vending~drinks|food]({south},{west},{north},{east});",
    "Unnamed Vending Machine"⟩,
   ⟨"camping_hotels",
    "node[tourism~camp_site|camping|hotel|hostel|guest_house|motel]({south},{west},{north},{east}); way[tourism~camp_site|camping|hotel|hostel|guest_house|motel]({south},{west},{north},{east});",
    "Unnamed Accommodation"⟩,
   ⟨"sport_areas",
    "node[leisure~sports_centre|stadium|recreation_ground]({south},{west},{north},{east}); way[leisure~sports_centre|stadium|recreation_ground]({south},{west},{north},{east});",
    "Unnamed Sport Area"⟩]

/-- The category keys, in table order. -/
def poiTypeKeys : List String := POI_TYPE_CONFIG.map (fun e => e.key)

/-- Table lookup by category key. -/
def configFor (t : String) : Option PoiTypeEntry :=
  POI_TYPE_CONFIG.find? (fun e => e.key == t)

/-! ## Per-category settings (the `poi_settings` dictionaries) -/

/-- One per-category settings dictionary: optional
`max_deviation_km` and `deduplication_radius_km` entries. -/
structure PoiSettings where
  max_deviation_km : Option ℚ := none
  deduplication_radius_km : Option ℚ := none

/-- The optional `poi_settings` mapping from category to settings. -/
abbrev PoiSettingsMap := List (String × PoiSettings)

/-- `poi_settings and poi_type in poi_settings` followed by the dict
access: `none` when the mapping is absent or has no entry for `t`
(an empty mapping is falsy in Python and looks up to `none` here). -/
def lookupSettings (settings : Option PoiSettingsMap) (t : String) : Option PoiSettings :=
  match settings with
  | none => none
  | some m => m.lookup t

/-- `poi_settings[poi_type].get('deduplication_radius_km', fallback)`. -/
def dedupRadiusFor (settings : Option PoiSettingsMap) (fallback : ℚ) (t : String) : ℚ :=
  match lookupSettings settings t with
  | some cfg => cfg.deduplication_radius_km.getD fallback
  | none => fallback

/-- `poi_settings[poi_type].get('max_deviation_km', fallback)`. -/
def maxDistanceFor (settings : Option PoiSettingsMap) (fallback : ℚ) (t : String) : ℚ :=
  match lookupSettings settings t with
  | some cfg => cfg.max_deviation_km.getD fallback
  | none => fallback

/-! ## Deduplication engine (overpass_client.py lines 689-754) -/

/-- The dedup-eligible category set (`deduplicate_types`); note that
`bicycle_vending` and `vending_machines` are absent. -/
def deduplicate_types : List String :=
  ["public_toilets", "grocery_stores", "bakeries", "water_fountains", "bicycle_shops",
   "camping_hotels", "gas_stations", "sport_areas"]

/-- Keys of the `pois_by_type` dictionary, in first-occurrence order
(Python dicts preserve insertion order). -/
def insertKey (ks : List String) (t : String) : List String :=
  if t ∈ ks then ks else ks ++ [t]

/-- All distinct `poi_type` values of the input, in first-occurrence order. -/
def typeKeys (pois : List POI) : List String :=
  pois.foldl (fun ks p => insertKey ks p.poi_type) []

/-- The group `pois_by_type[t]`, in input order. -/
def groupOf (pois : List POI) (t : String) : List POI :=
  pois.filter (fun p => p.poi_type == t)

/-- `bool(p.brand or p.operator)`. -/
def hasBrandOperator (p : POI) : Bool := truthyStr p.brand || truthyStr p.operator

/-- `bool(p.wikipedia or p.wikidata)`. -/
def hasWikiRef (p : POI) : Bool := truthyStr p.wikipedia || truthyStr p.wikidata

/-- `bool(p.url)`. -/
def hasUrl (p : POI) : Bool := truthyStr p.url

/-- `bool(p.name)`. -/
def hasName (p : POI) : Bool := !(p.name == "")

/-- The opening-hours duration of a POI, as used by the sort key. -/
def durOf (p : POI) : ℚ := calculate_opening_hours_duration p.opening_hours

/-- The four boolean tie-break components of the sort key
(brand/operator, wikipedia/wikidata, url, name), packed as one natural
number whose order is exactly the lexicographic order of the four
Python booleans `not bool(...)` (False sorts first, so presence wins). -/
def tieBreakNum (p : POI) : ℕ :=
  (cond (hasBrandOperator p) 0 8) + (cond (hasWikiRef p) 0 4) +
    (cond (hasUrl p) 0 2) + (cond (hasName p) 0 1)

/-- The lexicographic sort key order of `deduplicate_pois`:
ascending `distance_to_route`, then descending opening-hours duration,
then the four presence tie-breaks. -/
def keyLe (p q : POI) : Prop :=
  p.distance_to_route < q.distance_to_route ∨
    (p.distance_to_route = q.distance_to_route ∧
      (durOf q < durOf p ∨ (durOf p = durOf q ∧ tieBreakNum p ≤ tieBreakNum q)))

open Classical in
/-- `type_pois.sort(key=...)`: a stable sort by the preference key
(Python's Timsort and insertion sort agree on all stable-sort outputs). -/
noncomputable def sortByPreference (l : List POI) : List POI := List.insertionSort keyLe l

/-- The distance `haversine((poi.lat, poi.lon), (kept.lat, kept.lon))`
used by the greedy scan. -/
noncomputable def havPOI (p k : POI) : ℝ := haversineKm p.lat p.lon k.lat k.lon

open Classical in
/-- The greedy radius-suppression scan: keep a candidate unless it is
within `radius` of an already-kept POI. -/
noncomputable def keepLoop (radius : ℝ) : List POI → List POI → List POI
  | kept, [] => kept
  | kept, p :: rest =>
    if ∃ k ∈ kept, havPOI p k < radius then keepLoop radius kept rest
    else keepLoop radius (kept ++ [p]) rest

/-- Processing of one category group inside `deduplicate_pois`:
eligible categories are sorted by preference and greedily suppressed
within the category's radius; other categories pass through unchanged. -/
noncomputable def dedupGroup (settings : Option PoiSettingsMap) (fallback : ℚ) (t : String)
    (g : List POI) : List POI :=
  if t ∈ deduplicate_types then
    keepLoop ((dedupRadiusFor settings fallback t : ℚ) : ℝ) [] (sortByPreference g)
  else g

/-- `OverpassClient.deduplicate_pois`: group by category (insertion
order), process each group, concatenate the results. -/
noncomputable def deduplicate_pois (pois : List POI) (deduplication_radius_km : ℚ)
    (poi_settings : Option PoiSettingsMap) : List POI :=
  ((typeKeys pois).map
    (fun t => dedupGroup poi_settings deduplication_radius_km t (groupOf pois t))).flatten

/-! ## Raw Overpass elements and the price heuristic
(overpass_client.py lines 287-562) -/

/-- One element of the Overpass JSON `elements` array: optional type
tag, optional direct coordinates, optional `center` object (itself with
optional coordinates), and the tag dictionary. -/
structure OsmElement where
  etype : Option String := none
  lat : Option ℚ := none
  lon : Option ℚ := none
  center : Option (Option ℚ × Option ℚ) := none
  tags : List (String × String) := []

/-- The parsed JSON body of a successful Overpass response. -/
structure OverpassData where
  elements : List OsmElement

/-- `tags.get(k)`. -/
def tagGet (tags : List (String × String)) (k : String) : Option String := tags.lookup k

/-- Coordinate resolution of `filter_pois`: nodes use their direct
coordinates; ways use the `center` coordinates, falling back to direct
coordinates only when no `center` object is present; anything else is
skipped. -/
def elementCoords (e : OsmElement) : Option (ℚ × ℚ) :=
  if e.etype = some "node" then
    match e.lat, e.lon with
    | some la, some lo => some (la, lo)
    | _, _ => none
  else if e.etype = some "way" then
    match e.center with
    | some c =>
      match c with
      | (some la, some lo) => some (la, lo)
      | _ => none
    | none =>
      match e.lat, e.lon with
      | some la, some lo => some (la, lo)
      | _, _ => none
  else none

/-- The currency symbols recognized by the price heuristic. -/
def currencyChars : List Char := ['€', '$', '£', '¥']

/-- `re.search` for one of the currency symbols: leftmost occurrence. -/
def findCurrency (l : List Char) : Option Char :=
  l.find? (fun c => currencyChars.contains c)

/-- Greedy match of one `\\d+(?:\\.\\d+)?` number: the matched
characters (integer part, then an optional fraction) and the rest. -/
def takeNumTail (intPart : List Char) (r : List Char) : List Char × List Char :=
  match r with
  | '.' :: d :: r3 =>
    if d.isDigit then
      (intPart ++ '.' :: (d :: r3).takeWhile Char.isDigit, (d :: r3).dropWhile Char.isDigit)
    else (intPart, r)
  | _ => (intPart, r)

/-- Greedy number match starting at the head of `l` (assumed to be a
digit). -/
def takeNum (l : List Char) : List Char × List Char :=
  takeNumTail (l.takeWhile Char.isDigit) (l.dropWhile Char.isDigit)

/-- `re.findall(r'\d+(?:\.\d+)?', s)`: all non-overlapping number
matches, left to right. -/
def numsIn (l : List Char) : List String :=
  match l with
  | [] => []
  | c :: rest =>
    if h : c.isDigit then
      let t := takeNum (c :: rest)
      String.mk t.1 :: numsIn t.2
    else numsIn rest
termination_by l.length
decreasing_by
  · have hle : ∀ ip r : List Char, ((takeNumTail ip r).2).length ≤ r.length := by
      intro ip r
      unfold takeNumTail
      split
      · split
        · exact le_trans (List.dropWhile_sublist (p := Char.isDigit)).length_le (by simp)
        · exact le_refl _
      · exact le_refl _
    have hd : ((c :: rest).dropWhile Char.isDigit).length < (c :: rest).length := by
      rw [List.dropWhile_cons_of_pos h]
      exact Nat.lt_succ_of_le (List.dropWhile_sublist (p := Char.isDigit)).length_le
    exact Nat.lt_of_le_of_lt (hle _ _) hd
  · simp

/-- Value of a string of decimal digits. -/
def natOfDigits (l : List Char) : ℕ := l.foldl (fun acc c => 10 * acc + digitVal c) 0

/-- `extract_currency_and_amount`: the first currency symbol (default
the euro sign) and all number matches. -/
def extractCurrencyAndAmount (price : List Char) : String × List String :=
  (match findCurrency price with
   | some c => String.mk [c]
   | none => "€",
   numsIn price)

/-- `format_price`: keep a decimal amount verbatim, reformat a whole
amount through `int(float(.))` (which strips leading zeros), and attach
the optional unit. -/
def formatPrice (amount : String) (currency : String) (unit : String) : String :=
  let unitStr := if unit = "" then "" else " " ++ unit
  if amount.data.contains '.' then currency ++ amount ++ unitStr
  else currency ++ toString (natOfDigits amount.data) ++ unitStr

/-- `int(float(s))` with Python's conversion errors as `none`: sign,
integer digits, optional fraction (no exponent forms — the tags the
heuristic reads never carry them), truncated toward zero. -/
def parseFloatTrunc (s : String) : Option ℤ :=
  let l := trimChars s.data
  let sign : ℤ := match l with
    | '-' :: _ => -1
    | _ => 1
  let l2 := match l with
    | '-' :: r => r
    | '+' :: r => r
    | _ => l
  let ip := l2.takeWhile Char.isDigit
  let r := l2.dropWhile Char.isDigit
  match r with
  | [] => if ip.isEmpty then none else some (sign * natOfDigits ip)
  | '.' :: r2 =>
    let fp := r2.takeWhile Char.isDigit
    let r3 := r2.dropWhile Char.isDigit
    if r3.isEmpty && !(ip.isEmpty && fp.isEmpty) then some (sign * natOfDigits ip) else none
  | _ => none

/-- The per-unit price scan (priority 1 of `extract_price_range`): for
each key present in the tags, format its first number match with the
detected currency and the unit label. -/
def perUnitPrices (tags : List (String × String)) (keys : List String) (unit : String) :
    List String :=
  keys.filterMap (fun k =>
    match tagGet tags k with
    | none => none
    | some v =>
      let pv := trimChars v.data
      match numsIn pv with
      | [] => none
      | n :: _ => some (formatPrice n (extractCurrencyAndAmount pv).1 unit))

/-- Lowercased tag value with `""` default: `tags.get(k, "").lower()`. -/
def tagLower (tags : List (String × String)) (k : String) : String :=
  String.mk (charsLower ((tagGet tags k).getD "").data)

/-- Lowercase of an optional string value. -/
def lowerOpt (v : String) : String := String.mk (charsLower v.data)

/-- Priority 2 of `extract_price_range`: the `price`/`fee`/`charge`
chain; free markers, the skipped `yes`, ranges, single amounts with a
tourism-derived unit, or the raw string. `none` means fall through. -/
def priceTagResult (tags : List (String × String)) : Option String :=
  let price := orOpt (orOpt (tagGet tags "price") (tagGet tags "fee")) (tagGet tags "charge")
  if truthyStr price then
    let priceStr := String.mk (trimChars (price.getD "").data)
    let feeLower := lowerOpt priceStr
    if feeLower = "no" ∨ feeLower = "free" ∨ feeLower = "gratis" ∨ feeLower = "0" then
      some "Free"
    else if feeLower = "yes" then none
    else
      let cur := (extractCurrencyAndAmount priceStr.data).1
      let nums := (extractCurrencyAndAmount priceStr.data).2
      if priceStr.data.contains '-' ∧ 2 ≤ nums.length then
        some (cur ++ nums.getD 0 "" ++ "-" ++ nums.getD 1 "")
      else if 1 ≤ nums.length then
        let tourism := tagLower tags "tourism"
        let unit := if tourism = "hotel" ∨ tourism = "hostel" ∨ tourism = "guest_house" ∨
            tourism = "motel" ∨ tourism = "camp_site" ∨ tourism = "camping" then "per night" else ""
        some (formatPrice (nums.getD 0 "") cur unit)
      else some priceStr
  else none

/-- The `price_range`/`price:range` handling shared by the camping and
accommodation branches (unit label differs). -/
def priceRangeTagResult (tags : List (String × String)) (unit : String) : Option String :=
  let pr := orOpt (tagGet tags "price_range") (tagGet tags "price:range")
  if truthyStr pr then
    let prs := pr.getD ""
    let cur := (extractCurrencyAndAmount prs.data).1
    let nums := (extractCurrencyAndAmount prs.data).2
    if 2 ≤ nums.length then
      some (cur ++ nums.getD 0 "" ++ "-" ++ nums.getD 1 "" ++ " " ++ unit)
    else if 1 ≤ nums.length then some (formatPrice (nums.getD 0 "") cur unit)
    else some prs
  else none

/-- The star-rating heuristic of the accommodation branch; `none` falls
through (including unparsable and zero/negative star counts). -/
def starsResult (tags : List (String × String)) : Option String :=
  match tagGet tags "stars" with
  | none => none
  | some v =>
    match parseFloatTrunc v with
    | none => none
    | some n =>
      if 4 ≤ n then some "Expensive"
      else if 3 ≤ n then some "Mid-range"
      else if 1 ≤ n then some "Budget"
      else none

/-- The final `fee` yes/no check (priority 4). -/
def feeResult (tags : List (String × String)) : Option String :=
  match tagGet tags "fee" with
  | some v =>
    if truthyStr (some v) then
      let feeStr := lowerOpt v
      if feeStr = "no" ∨ feeStr = "free" ∨ feeStr = "gratis" then some "Free"
      else if feeStr = "yes" then some "Fee required"
      else none
    else none
  | none => none

/-- `OverpassClient.extract_price_range`: the prioritized tag search for
a human-readable accommodation price indicator. -/
def extract_price_range (tags : List (String × String)) : Option String :=
  let perUnit :=
    perUnitPrices tags ["fee:per_person", "charge:per_person", "price:per_person"] "per person" ++
    perUnitPrices tags ["fee:per_night", "charge:per_night", "price:per_night"] "per night" ++
    perUnitPrices tags ["fee:per_tent", "charge:per_tent", "price:per_tent"] "per tent" ++
    perUnitPrices tags ["fee:per_car", "charge:per_car", "price:per_car"] "per car"
  if !perUnit.isEmpty then some (String.intercalate ", " perUnit)
  else
    match priceTagResult tags with
    | some r => some r
    | none =>
      let tourism := tagLower tags "tourism"
      let campResult : Option String :=
        if tourism = "camp_site" ∨ tourism = "camping" then
          match tagGet tags "fee" with
          | some v =>
            if truthyStr (some v) then
              let feeStr := lowerOpt v
              if feeStr = "no" ∨ feeStr = "free" then some "Free"
              else if feeStr = "yes" then some "Fee required"
              else priceRangeTagResult tags "per tent"
            else priceRangeTagResult tags "per tent"
          | none => priceRangeTagResult tags "per tent"
        else none
      match campResult with
      | some r => some r
      | none =>
        let hotelResult : Option String :=
          if tourism = "hotel" ∨ tourism = "hostel" ∨ tourism = "guest_house" ∨
              tourism = "motel" then
            match priceRangeTagResult tags "per night" with
            | some r => some r
            | none =>
              if tagLower tags "budget" = "yes" then some "Budget"
              else
                match starsResult tags with
                | some r => some r
                | none =>
                  if tourism = "hostel" then some "Budget"
                  else if tourism = "motel" then some "Mid-range"
                  else none
          else none
        match hotelResult with
        | some r => some r
        | none => feeResult tags

/-! ## `filter_pois` (overpass_client.py lines 287-381) -/

open Classical in
/-- Conversion of one raw element into a POI: resolve coordinates (skip
when unresolvable), compute the perpendicular distance to the nearest
route point, keep the element only within `max_distance_to_route_km`,
and extract the metadata tags.  The Google-Maps link embeds the
rational coordinates (Python interpolates the float repr there). -/
noncomputable def processElement (route : Route) (poi_type : String) (default_name : String)
    (maxDist : ℚ) (e : OsmElement) : Option POI :=
  match elementCoords e with
  | none => none
  | some (la, lo) =>
    let poi_point : RoutePoint := ⟨la, lo⟩
    let nearest := pointAt route (find_nearest_route_point_index route poi_point)
    let distance_to_route_km := haversine_distance poi_point nearest
    if distance_to_route_km ≤ (maxDist : ℝ) then
      some { lat := la, lon := lo,
             name := match tagGet e.tags "name" with
                     | some n => if n ≠ "" then n else default_name
                     | none => default_name,
             distance_to_route := distance_to_route_km,
             distance_on_route := calculate_distance_on_route route nearest,
             poi_type := poi_type,
             opening_hours := tagGet e.tags "opening_hours",
             url := orOpt (tagGet e.tags "website") (tagGet e.tags "url"),
             google_maps_link := "https://www.google.com/maps?q=" ++ toString la ++ "," ++ toString lo,
             price_range := if poi_type = "camping_hotels" then extract_price_range e.tags else none,
             brand := tagGet e.tags "brand",
             operator := tagGet e.tags "operator",
             wikipedia := tagGet e.tags "wikipedia",
             wikidata := tagGet e.tags "wikidata" }
    else none

/-- The order used for the final sorts: ascending distance along the
route. -/
def onRouteLe (p q : POI) : Prop := p.distance_on_route ≤ q.distance_on_route

open Classical in
/-- `pois.sort(key=lambda poi: poi.distance_on_route)`: stable sort by
distance along the route. -/
noncomputable def sortByOnRoute (l : List POI) : List POI := List.insertionSort onRouteLe l

/-- `OverpassClient.filter_pois`: reject unknown categories, convert
and filter the elements in order, and sort the result by distance along
the route. -/
noncomputable def filter_pois (route : Route) (overpass_poi_data : OverpassData)
    (poi_type : String) (max_distance_to_route_km : ℚ) : Except String (List POI) :=
  match configFor poi_type with
  | none => .error ("Unknown POI type: " ++ poi_type)
  | some cfg =>
    .ok (sortByOnRoute (overpass_poi_data.elements.filterMap
      (processElement route poi_type cfg.default_name max_distance_to_route_km)))

/-! ## `query_poi_type` (overpass_client.py lines 106-213)

The HTTP layer is embedded as an oracle `respond : String → ℕ →
HttpOutcome` giving the outcome of the POST to a given endpoint url at
a given attempt number.  Sleeps and per-attempt timeouts do not affect
values and are not modeled.  Each run also produces the trace of
(url, attempt) pairs actually consulted. -/

/-- Outcome of one HTTP attempt, as discriminated by the except clauses
of `query_poi_type`. -/
inductive HttpOutcome where
  | success (data : OverpassData)
  | timeout
  | httpError (status : ℕ)
  | invalidJsonBody
  | connectionTrouble
  | otherRequestTrouble

/-- The error classes raised by `query_poi_type`: `timeoutError` is a
`TimeoutError`, `badRequest` and `invalidJson` are `ValueError`s, all
others are `ConnectionError`s (`noAttempts` is the fallback
`ConnectionError` raised when no attempt recorded an error, and
`unknownPoiType` the validation `ValueError`). -/
inductive QueryError where
  | timeoutError
  | rateLimited
  | badRequest
  | serverError
  | httpOther (status : ℕ)
  | invalidJson
  | connectionFailed
  | requestFailed
  | noAttempts
  | unknownPoiType (t : String)
deriving DecidableEq

/-- Whether the error is connection-class (Python `ConnectionError`). -/
def QueryError.isConnectionClass : QueryError → Bool
  | .rateLimited | .serverError | .httpOther _ | .connectionFailed
  | .requestFailed | .noAttempts => true
  | _ => false

/-- The error recorded for a failed attempt (`last_error`). -/
def outcomeError : HttpOutcome → QueryError
  | .success _ => .noAttempts
  | .timeout => .timeoutError
  | .httpError s =>
    if s = 429 then .rateLimited
    else if s = 400 then .badRequest
    else if 500 ≤ s ∧ s < 600 then .serverError
    else .httpOther s
  | .invalidJsonBody => .invalidJson
  | .connectionTrouble => .connectionFailed
  | .otherRequestTrouble => .requestFailed

/-- Whether a failed attempt retries the same endpoint when attempts
remain (timeouts, rate limits, server errors, connection and other
request failures) or breaks to the next endpoint immediately (bad
request, other HTTP statuses, unparsable JSON bodies). -/
def outcomeRetries : HttpOutcome → Bool
  | .success _ => false
  | .timeout => true
  | .httpError s =>
    if s = 429 then true
    else if s = 400 then false
    else if 500 ≤ s ∧ s < 600 then true
    else false
  | .invalidJsonBody => false
  | .connectionTrouble => true
  | .otherRequestTrouble => true

/-- The retry loop over attempts `a, a+1, ...` at one endpoint:
returns the data on success, the threaded `last_error`, and the list of
attempts made. -/
def attemptLoop (respond : ℕ → HttpOutcome) (maxRetries : ℕ) (a : ℕ)
    (lastError : Option QueryError) :
    Option OverpassData × Option QueryError × List ℕ :=
  if a < maxRetries then
    match respond a with
    | .success d => (some d, lastError, [a])
    | o =>
      if outcomeRetries o ∧ a < maxRetries - 1 then
        let r := attemptLoop respond maxRetries (a + 1) (some (outcomeError o))
        (r.1, r.2.1, a :: r.2.2)
      else (none, some (outcomeError o), [a])
  else (none, lastError, [])
termination_by maxRetries - a

/-- The failover loop over the endpoint urls. -/
def endpointLoop (respond : String → ℕ → HttpOutcome) (maxRetries : ℕ) :
    List String → Option QueryError →
    Option OverpassData × Option QueryError × List (String × ℕ)
  | [], lastError => (none, lastError, [])
  | url :: rest, lastError =>
    let r := attemptLoop (respond url) maxRetries 0 lastError
    match r.1 with
    | some d => (some d, r.2.1, r.2.2.map (fun a => (url, a)))
    | none =>
      let r2 := endpointLoop respond maxRetries rest r.2.1
      (r2.1, r2.2.1, r.2.2.map (fun a => (url, a)) ++ r2.2.2)

/-- The ordered Overpass API instances tried by the client. -/
def overpass_urls : List String :=
  ["https://overpass-api.de/api/interpreter",
   "http://overpass-api.de/api/interpreter",
   "https://overpass.kumi.systems/api/interpreter"]

/-- `OverpassClient.query_poi_type`: validate the category, then run
the failover/retry loops; on overall failure raise the last recorded
error (or the fallback connection error). -/
def query_poi_type (respond : String → ℕ → HttpOutcome) (poi_type : String)
    (max_retries : ℕ) :
    Except QueryError OverpassData × List (String × ℕ) :=
  if poi_type ∈ poiTypeKeys then
    let r := endpointLoop respond max_retries overpass_urls none
    match r.1 with
    | some d => (.ok d, r.2.2)
    | none => (.error (r.2.1.getD .noAttempts), r.2.2)
  else (.error (.unknownPoiType poi_type), [])

/-! ## `query_all_poi_types` (overpass_client.py lines 215-285) -/

/-- Observable events of one acquisition run: the progress callback,
each network consultation, and the per-category batch callback. -/
inductive AcqEvent where
  | progress (poi_type : String) (current total : ℕ)
  | consult (poi_type url : String) (attempt : ℕ)
  | batch (poi_type : String) (pois : List POI)

/-- The value produced for one category inside the per-category `try`:
query (3 retries per endpoint), filter with the per-category maximum
distance, deduplicate with the per-category radius; `none` when the
query (or, impossibly for a validated category, the filter) raised and
the category is skipped. -/
noncomputable def categoryPOIs (respond : String → String → ℕ → HttpOutcome) (route : Route)
    (maxDist dedupRadius : ℚ) (settings : Option PoiSettingsMap) (t : String) :
    Option (List POI) :=
  match (query_poi_type (respond t) t 3).1 with
  | .error _ => none
  | .ok data =>
    match filter_pois route data t (maxDistanceFor settings maxDist t) with
    | .error _ => none
    | .ok filtered => some (deduplicate_pois filtered dedupRadius settings)

/-- The sequential per-category loop: accumulates the deduplicated
batches in category order together with the emitted events (progress,
consultations, then the batch callback when the category succeeded). -/
noncomputable def acqLoop (respond : String → String → ℕ → HttpOutcome) (route : Route)
    (maxDist dedupRadius : ℚ) (settings : Option PoiSettingsMap) (total : ℕ) :
    List String → ℕ → List POI × List AcqEvent
  | [], _ => ([], [])
  | t :: rest, i =>
    let consults : List AcqEvent :=
      (query_poi_type (respond t) t 3).2.map (fun ua => .consult t ua.1 ua.2)
    let r := acqLoop respond route maxDist dedupRadius settings total rest (i + 1)
    match categoryPOIs respond route maxDist dedupRadius settings t with
    | some ded => (ded ++ r.1, (.progress t i total :: consults ++ [.batch t ded]) ++ r.2)
    | none => (r.1, (.progress t i total :: consults) ++ r.2)

/-- `OverpassClient.query_all_poi_types`: validate a caller-supplied
selection before anything runs (an empty selection is falsy and falls
back to all categories), run the per-category loop, and sort the union
by distance along the route.  The error payload is the list of unknown
category names. -/
noncomputable def query_all_poi_types (respond : String → String → ℕ → HttpOutcome)
    (route : Route) (max_distance_to_route_km : ℚ) (selected_poi_types : Option (List String))
    (deduplication_radius_km : ℚ) (poi_settings : Option PoiSettingsMap) :
    Except (List String) (List POI) × List AcqEvent :=
  let chosen : Option (List String) :=
    match selected_poi_types with
    | some sel => if sel.isEmpty then none else some sel
    | none => none
  match chosen with
  | some sel =>
    let invalid := sel.filter (fun t => !(poiTypeKeys.contains t))
    if invalid.isEmpty then
      let r := acqLoop respond route max_distance_to_route_km deduplication_radius_km
        poi_settings sel.length sel 1
      (.ok (sortByOnRoute r.1), r.2)
    else (.error invalid, [])
  | none =>
    let r := acqLoop respond route max_distance_to_route_km deduplication_radius_km
      poi_settings poiTypeKeys.length poiTypeKeys 1
    (.ok (sortByOnRoute r.1), r.2)

/-! ## Concrete fixtures used by the closed theorems below -/

/-- Two same-category bakery POIs at the same location; the first is
closer to the route. -/
noncomputable def poiBak1 : POI :=
  { lat := 0, lon := 0, name := "Bakery 1", distance_to_route := 0, distance_on_route := 0,
    poi_type := "bakeries" }

/-- See `poiBak1`. -/
noncomputable def poiBak2 : POI :=
  { lat := 0, lon := 0, name := "Bakery 2", distance_to_route := 1, distance_on_route := 0,
    poi_type := "bakeries" }

/-- A gas station at the same location as `poiBak1`. -/
noncomputable def poiGas1 : POI :=
  { lat := 0, lon := 0, name := "Gas 1", distance_to_route := 0, distance_on_route := 0,
    poi_type := "gas_stations" }

/-- Two coincident vending-machine POIs. -/
noncomputable def poiVend1 : POI :=
  { lat := 0, lon := 0, name := "Vending 1", distance_to_route := 0, distance_on_route := 0,
    poi_type := "vending_machines" }

/-- See `poiVend1`. -/
noncomputable def poiVend2 : POI :=
  { lat := 0, lon := 0, name := "Vending 2", distance_to_route := 1, distance_on_route := 0,
    poi_type := "vending_machines" }

/-- Two coincident bicycle-vending POIs. -/
noncomputable def poiBike1 : POI :=
  { lat := 0, lon := 0, name := "Bike 1", distance_to_route := 0, distance_on_route := 0,
    poi_type := "bicycle_vending" }

/-- See `poiBike1`. -/
noncomputable def poiBike2 : POI :=
  { lat := 0, lon := 0, name := "Bike 2", distance_to_route := 1, distance_on_route := 0,
    poi_type := "bicycle_vending" }

/-- A two-point route used by the distance-on-route witness. -/
def routeW : Route := ⟨[⟨0, 0⟩, ⟨0, 1⟩]⟩

/-- A one-point route at the origin used by the acquisition witnesses. -/
def routeO : Route := ⟨[⟨0, 0⟩]⟩

/-- One raw node element at the origin carrying a name tag. -/
def elemW : OsmElement := { etype := some "node", lat := some 0, lon := some 0,
                            tags := [("name", "Bakery X")] }

/-- A response body holding just `elemW`. -/
def dataW : OverpassData := ⟨[elemW]⟩

/-- An oracle for which the bakeries query succeeds everywhere and
every other category receives HTTP 400 from every endpoint. -/
def oracleW : String → String → ℕ → HttpOutcome :=
  fun t _ _ => if t = "bakeries" then .success dataW else .httpError 400

/-- An oracle answering HTTP 429 (rate limit) to every request. -/
def oracle429 : String → ℕ → HttpOutcome := fun _ _ => .httpError 429

/-- The POI produced by `filter_pois` from `elemW` on `routeO`. -/
noncomputable def poiBakX : POI :=
  { lat := 0, lon := 0, name := "Bakery X", distance_to_route := 0, distance_on_route := 0,
    poi_type := "bakeries", opening_hours := none, url := none,
    google_maps_link := "https://www.google.com/maps?q=" ++ toString (0 : ℚ) ++ "," ++ toString (0 : ℚ),
    price_range := none, brand := none, operator := none, wikipedia := none, wikidata := none }

/-! # Theorems

General lemmas first, then one theorem per claim (with its witness or
counterexample). -/

/-! ## Great-circle distance lemmas -/

lemma haversineKm_self (la lo : ℚ) : haversineKm la lo la lo = 0 := by
  unfold haversineKm
  simp

lemma sin_half_sq_comm (x y : ℝ) : Real.sin ((x - y) / 2) ^ 2 = Real.sin ((y - x) / 2) ^ 2 := by
  rw [show (x - y) / 2 = -((y - x) / 2) by ring, Real.sin_neg, neg_sq]

lemma haversineKm_comm (la1 lo1 la2 lo2 : ℚ) :
    haversineKm la1 lo1 la2 lo2 = haversineKm la2 lo2 la1 lo1 := by
  unfold haversineKm
  rw [sin_half_sq_comm (deg2rad la2) (deg2rad la1), sin_half_sq_comm (deg2rad lo2) (deg2rad lo1),
    mul_comm (Real.cos (deg2rad la1)) (Real.cos (deg2rad la2))]

lemma havPOI_self_coincident (p q : POI) (hla : p.lat = q.lat) (hlo : p.lon = q.lon) :
    havPOI p q = 0 := by
  unfold havPOI
  rw [hla, hlo]
  exact haversineKm_self _ _

lemma havPOI_comm (p q : POI) : havPOI p q = havPOI q p := by
  unfold havPOI
  exact haversineKm_comm _ _ _ _

/-- C9: the haversine distance of `route_calculator.py` vanishes on
identical coordinates and is symmetric in its two arguments. -/
theorem C9_haversine_zero_and_symmetric (p q : RoutePoint) :
    haversine_distance p p = 0 ∧ haversine_distance p q = haversine_distance q p := by
  constructor
  · unfold haversine_distance
    exact haversineKm_self _ _
  · unfold haversine_distance
    exact haversineKm_comm _ _ _ _

/-! ## Distance along the route (C8) -/

lemma foldl_range_add (f : ℕ → ℝ) (n : ℕ) :
    (List.range n).foldl (fun acc i => acc + f i) 0 = ∑ i in Finset.range n, f i := by
  induction n with
  | zero => simp
  | succ n ih =>
    rw [List.range_succ, List.foldl_append, ih]
    simp [Finset.sum_range_succ]

lemma calculate_distance_on_route_eq_sum (route : Route) (pt : RoutePoint) :
    calculate_distance_on_route route pt =
      ∑ k in Finset.range (find_nearest_route_point_index route pt),
        haversine_distance (pointAt route k) (pointAt route (k + 1)) := by
  unfold calculate_distance_on_route
  exact foldl_range_add _ _

/-- C8: `calculate_distance_on_route` equals the sum of the haversine
distances of consecutive route points up to the nearest route point
index; it is 0 when that index is the first point and the total route
length when it is the last point. -/
theorem C8_distance_on_route_prefix_sum (route : Route) (pt : RoutePoint)
    (hne : route.points ≠ []) :
    calculate_distance_on_route route pt =
      (∑ k in Finset.range (find_nearest_route_point_index route pt),
        haversine_distance (pointAt route k) (pointAt route (k + 1))) ∧
    (find_nearest_route_point_index route pt = 0 →
      calculate_distance_on_route route pt = 0) ∧
    (find_nearest_route_point_index route pt = route.points.length - 1 →
      calculate_distance_on_route route pt = total_route_length route) := by
  refine ⟨calculate_distance_on_route_eq_sum route pt, ?_, ?_⟩
  · intro h0
    unfold calculate_distance_on_route
    rw [h0]
    simp
  · intro hlast
    unfold calculate_distance_on_route total_route_length
    rw [hlast]

lemma find_nearest_routeW_first : find_nearest_route_point_index routeW ⟨0, 0⟩ = 0 := by
  show nearestAux ⟨0, 0⟩ [⟨0, 1⟩] 1 0 (sqDegDist ⟨0, 0⟩ ⟨0, 0⟩) = 0
  unfold nearestAux
  rw [if_neg (by norm_num [sqDegDist])]
  rfl

lemma find_nearest_routeW_last : find_nearest_route_point_index routeW ⟨0, 1⟩ = 1 := by
  show nearestAux ⟨0, 1⟩ [⟨0, 1⟩] 1 0 (sqDegDist ⟨0, 1⟩ ⟨0, 0⟩) = 1
  unfold nearestAux
  rw [if_pos (by norm_num [sqDegDist])]
  rfl

theorem C8_distance_on_route_prefix_sum_witness :
    calculate_distance_on_route routeW ⟨0, 0⟩ = 0 ∧
      calculate_distance_on_route routeW ⟨0, 1⟩ = total_route_length routeW := by
  constructor
  · exact (C8_distance_on_route_prefix_sum routeW ⟨0, 0⟩ (List.cons_ne_nil _ _)).2.1
      find_nearest_routeW_first
  · exact (C8_distance_on_route_prefix_sum routeW ⟨0, 1⟩ (List.cons_ne_nil _ _)).2.2
      (by rw [find_nearest_routeW_last]; rfl)

/-! ## Opening-hours duration (C3) -/

lemma foldl_add_zeros (l : List ℚ) (a : ℚ) (h : ∀ x ∈ l, x = 0) :
    l.foldl (fun x y => x + y) a = a := by
  induction l generalizing a with
  | nil => rfl
  | cons b t ih =>
    have hb : b = 0 := h b (List.mem_cons_self _ _)
    rw [List.foldl_cons, hb, add_zero]
    exact ih a fun x hx => h x (List.mem_cons_of_mem _ hx)

lemma sumParts_bounds (l : List Char) : 0 ≤ sumParts l ∧ sumParts l ≤ 168 := by
  unfold sumParts
  dsimp only
  split
  next h => exact ⟨le_min (le_of_lt h) (by norm_num), min_le_right _ _⟩
  next h => norm_num

lemma dayIndex_le_seven (s : String) : dayIndex s ≤ 7 := by
  unfold dayIndex
  split_ifs <;> norm_num

lemma numDaysVal_bounds (sd ed : ℕ) (h1 : 0 < sd) (h3 : sd ≤ 7) (h4 : ed ≤ 7) :
    1 ≤ numDaysVal sd ed ∧ numDaysVal sd ed ≤ 7 := by
  unfold numDaysVal
  split <;> omega

lemma timeQ_eq (h m : ℕ) : timeQ h m = ((60 * h + m : ℕ) : ℚ) / 60 := by
  unfold timeQ
  push_cast
  ring

lemma timeQ_nonneg (h m : ℕ) : 0 ≤ timeQ h m := by
  rw [timeQ_eq]
  positivity

lemma timeQ_le (h m : ℕ) (hh : h ≤ 23) (hm : m ≤ 59) : timeQ h m ≤ 1439 / 60 := by
  unfold timeQ
  have h1 : (h : ℚ) ≤ 23 := by exact_mod_cast hh
  have h2 : (m : ℚ) ≤ 59 := by exact_mod_cast hm
  linarith

lemma hoursPerDay_bounds (sh sm eh em : ℕ) (h1 : sh ≤ 23) (h2 : eh ≤ 23)
    (h3 : sm ≤ 59) (h4 : em ≤ 59) :
    0 ≤ hoursPerDay (timeQ sh sm) (timeQ eh em) ∧
      hoursPerDay (timeQ sh sm) (timeQ eh em) ≤ 1439 / 60 := by
  unfold hoursPerDay
  split
  next hov =>
    have ha := timeQ_le sh sm h1 h3
    have hb := timeQ_nonneg eh em
    have hlt : (60 * eh + em : ℕ) < (60 * sh + sm : ℕ) := by
      have h := hov
      rw [timeQ_eq, timeQ_eq] at h
      have : ((60 * eh + em : ℕ) : ℚ) < ((60 * sh + sm : ℕ) : ℚ) := by linarith
      exact_mod_cast this
    have hq : ((60 * eh + em : ℕ) : ℚ) + 1 ≤ ((60 * sh + sm : ℕ) : ℚ) := by exact_mod_cast hlt
    constructor
    · linarith
    · rw [timeQ_eq sh sm, timeQ_eq eh em]
      linarith
  next hov =>
    push_neg at hov
    have ha := timeQ_nonneg sh sm
    have hb := timeQ_le eh em h2 h4
    exact ⟨by linarith, by linarith⟩

lemma clauseHours_eq_some (m : ClauseMatch) (v : ℚ) (h : clauseHours m = some v) :
    0 < dayIndex m.d1 ∧ 0 < dayIndex m.d2 ∧
      v = ((numDaysVal (dayIndex m.d1) (dayIndex m.d2) : ℕ) : ℚ) *
        hoursPerDay (timeQ m.sh m.sm) (timeQ m.eh m.em) := by
  unfold clauseHours at h
  dsimp only at h
  split at h
  next hd => exact ⟨hd.1, hd.2, (Option.some_injective _ h).symm⟩
  next hd => exact absurd h (by simp)

lemma clauseHours_bounds (m : ClauseMatch) (v : ℚ) (h : clauseHours m = some v)
    (h1 : m.sh ≤ 23) (h2 : m.eh ≤ 23) (h3 : m.sm ≤ 59) (h4 : m.em ≤ 59) :
    0 ≤ v ∧ v ≤ 168 := by
  obtain ⟨hd1, hd2, hv⟩ := clauseHours_eq_some m v h
  obtain ⟨hn1, hn7⟩ := numDaysVal_bounds (dayIndex m.d1) (dayIndex m.d2) hd1
    (dayIndex_le_seven _) (dayIndex_le_seven _)
  obtain ⟨hp0, hpb⟩ := hoursPerDay_bounds m.sh m.sm m.eh m.em h1 h2 h3 h4
  have hn1q : (1 : ℚ) ≤ ((numDaysVal (dayIndex m.d1) (dayIndex m.d2) : ℕ) : ℚ) := by
    exact_mod_cast hn1
  have hn7q : ((numDaysVal (dayIndex m.d1) (dayIndex m.d2) : ℕ) : ℚ) ≤ 7 := by
    exact_mod_cast hn7
  constructor
  · rw [hv]
    positivity
  · rw [hv]
    nlinarith

lemma partHours_zero_of_no_match (p : List Char) (h : searchClause (trimChars p) = none) :
    partHours p = 0 := by
  unfold partHours
  dsimp only
  split
  · rfl
  · rw [h]

/-- C3 (amended): `calculate_opening_hours_duration` returns 0 on an
absent or empty input; 168 on a 24/7-equivalent phrasing; 0 when no
clause parses anywhere in the string; a matched clause with an
end time before its start time wraps past midnight; and the result lies
in [0, 168] whenever every clause matched by the whole-string search
has hour fields at most 23 and minute fields at most 59 — without that
restriction the single-match fast path is uncapped and its value can
leave [0, 168]. -/
theorem C3_opening_hours_duration_amended (oh : Option String) :
    ((oh = none ∨ oh = some "") → calculate_opening_hours_duration oh = 0) ∧
    (is_24_7 oh = true → calculate_opening_hours_duration oh = 168) ∧
    (∀ s, oh = some s → is_24_7 oh = false →
      searchClause (trimChars (charsLower s.data)) = none →
      (∀ p ∈ splitOnSemi (trimChars (charsLower s.data)), searchClause (trimChars p) = none) →
      calculate_opening_hours_duration oh = 0) ∧
    (∀ m v, clauseHours m = some v → timeQ m.eh m.em < timeQ m.sh m.sm →
      v = ((numDaysVal (dayIndex m.d1) (dayIndex m.d2) : ℕ) : ℚ) *
        ((24 - timeQ m.sh m.sm) + timeQ m.eh m.em)) ∧
    (∀ s, oh = some s →
      (∀ m, searchClause (trimChars (charsLower s.data)) = some m →
        m.sh ≤ 23 ∧ m.eh ≤ 23 ∧ m.sm ≤ 59 ∧ m.em ≤ 59) →
      0 ≤ calculate_opening_hours_duration oh ∧ calculate_opening_hours_duration oh ≤ 168) := by
  refine ⟨?_, ?_, ?_, ?_, ?_⟩
  · rintro (rfl | rfl)
    · rfl
    · rfl
  · intro h247
    rcases oh with _ | s
    · exact absurd h247 (by simp [is_24_7])
    · have hne : ¬(s = "") := by
        rintro rfl
        simp [is_24_7] at h247
      unfold calculate_opening_hours_duration
      dsimp only
      rw [if_neg hne, if_pos h247]
  · intro s hs h247 hsearch hparts
    subst hs
    by_cases hemp : s = ""
    · subst hemp
      rfl
    · unfold calculate_opening_hours_duration
      dsimp only
      rw [if_neg hemp, if_neg (by rw [h247]; exact Bool.false_ne_true)]
      simp only [hsearch]
      unfold sumParts
      dsimp only
      rw [foldl_add_zeros _ _ (fun x hx => by
        obtain ⟨p, hp, rfl⟩ := List.mem_map.mp hx
        exact partHours_zero_of_no_match p (hparts p hp))]
      norm_num
  · intro m v hch hov
    obtain ⟨_, _, hv⟩ := clauseHours_eq_some m v hch
    rw [hv]
    unfold hoursPerDay
    rw [if_pos hov]
  · intro s hs hok
    subst hs
    unfold calculate_opening_hours_duration
    dsimp only
    by_cases hemp : s = ""
    · rw [if_pos hemp]
      norm_num
    · rw [if_neg hemp]
      by_cases h247 : is_24_7 (some s) = true
      · rw [if_pos h247]
        norm_num
      · rw [if_neg h247]
        rcases hsearch : searchClause (trimChars (charsLower s.data)) with _ | m
        · simp only [hsearch]
          exact sumParts_bounds _
        · simp only [hsearch]
          rcases hch : clauseHours m with _ | v
          · simp only [hch]
            exact sumParts_bounds _
          · simp only [hch]
            obtain ⟨f1, f2, f3, f4⟩ := hok m hsearch
            exact clauseHours_bounds m v hch f1 f2 f3 f4

lemma duration_some_of_search (s : String) (hne : s ≠ "") (h247 : is_24_7 (some s) = false)
    (m : ClauseMatch) (hs : searchClause (trimChars (charsLower s.data)) = some m)
    (v : ℚ) (hch : clauseHours m = some v) :
    calculate_opening_hours_duration (some s) = v := by
  unfold calculate_opening_hours_duration
  dsimp only
  rw [if_neg hne, if_neg (by simp [h247])]
  simp only [hs, hch]

lemma duration_9900_eval : calculate_opening_hours_duration (some "mo-su 00:00-99:00") = 693 := by
  refine duration_some_of_search _ (by decide) (by decide) ⟨"mo", "su", 0, 0, 99, 0⟩
    (by decide) 693 ?_
  unfold clauseHours
  dsimp only
  rw [if_pos (by decide : 0 < dayIndex "mo" ∧ 0 < dayIndex "su")]
  rw [show numDaysVal (dayIndex "mo") (dayIndex "su") = 7 by decide]
  unfold hoursPerDay
  rw [if_neg (by norm_num [timeQ] : ¬(timeQ 99 0 < timeQ 0 0))]
  norm_num [timeQ]

/-- C3 counterexample: on the input string `mo-su 00:00-99:00` the
function returns 693, exceeding the claimed 168 upper bound (the
single-match fast path applies no cap). -/
theorem C3_counterexample :
    calculate_opening_hours_duration (some "mo-su 00:00-99:00") = 693 ∧
      ¬(calculate_opening_hours_duration (some "mo-su 00:00-99:00") ≤ 168) := by
  refine ⟨duration_9900_eval, ?_⟩
  rw [duration_9900_eval]
  norm_num

theorem C3_opening_hours_duration_amended_witness :
    0 ≤ calculate_opening_hours_duration (some "mo-fr 09:00-17:00") ∧
      calculate_opening_hours_duration (some "mo-fr 09:00-17:00") ≤ 168 := by
  refine (C3_opening_hours_duration_amended (some "mo-fr 09:00-17:00")).2.2.2.2
    "mo-fr 09:00-17:00" rfl ?_
  intro m hm
  have hs : searchClause (trimChars (charsLower "mo-fr 09:00-17:00".data)) =
      some ⟨"mo", "fr", 9, 0, 17, 0⟩ := by decide
  rw [hs] at hm
  rw [(Option.some_injective _ hm).symm]
  exact ⟨by decide, by decide, by decide, by decide⟩

/-! ## Deduplication engine lemmas -/

lemma keepLoop_nil (R : ℝ) (kept : List POI) : keepLoop R kept [] = kept :=
  keepLoop.eq_1 R kept

lemma keepLoop_cons (R : ℝ) (kept : List POI) (x : POI) (rest : List POI) :
    keepLoop R kept (x :: rest) =
      if ∃ k ∈ kept, havPOI x k < R then keepLoop R kept rest
      else keepLoop R (kept ++ [x]) rest :=
  keepLoop.eq_2 R kept x rest

lemma keepLoop_kept_subset (R : ℝ) (l : List POI) : ∀ kept, ∀ p ∈ kept, p ∈ keepLoop R kept l := by
  induction l with
  | nil =>
    intro kept p hp
    simpa [keepLoop] using hp
  | cons x rest ih =>
    intro kept p hp
    unfold keepLoop
    split
    · exact ih kept p hp
    · exact ih (kept ++ [x]) p (List.mem_append_left _ hp)

lemma keepLoop_subset (R : ℝ) (l : List POI) :
    ∀ kept, ∀ p ∈ keepLoop R kept l, p ∈ kept ∨ p ∈ l := by
  induction l with
  | nil =>
    intro kept p hp
    exact Or.inl (by simpa [keepLoop] using hp)
  | cons x rest ih =>
    intro kept p hp
    unfold keepLoop at hp
    split at hp
    · rcases ih kept p hp with h | h
      · exact Or.inl h
      · exact Or.inr (List.mem_cons_of_mem _ h)
    · rcases ih (kept ++ [x]) p hp with h | h
      · rcases List.mem_append.mp h with h2 | h2
        · exact Or.inl h2
        · exact Or.inr (by simp [List.mem_singleton.mp h2])
      · exact Or.inr (List.mem_cons_of_mem _ h)

lemma keepLoop_pairwise (R : ℝ) (l : List POI) :
    ∀ kept, kept.Pairwise (fun a b => R ≤ havPOI a b ∧ R ≤ havPOI b a) →
      (keepLoop R kept l).Pairwise (fun a b => R ≤ havPOI a b ∧ R ≤ havPOI b a) := by
  induction l with
  | nil =>
    intro kept hk
    simpa [keepLoop] using hk
  | cons x rest ih =>
    intro kept hk
    unfold keepLoop
    split
    · exact ih kept hk
    next hnc =>
      refine ih (kept ++ [x]) ?_
      rw [List.pairwise_append]
      push_neg at hnc
      refine ⟨hk, List.pairwise_singleton _ _, ?_⟩
      intro a ha b hb
      rw [List.mem_singleton] at hb
      subst hb
      have h1 : R ≤ havPOI b a := hnc a ha
      exact ⟨by rw [havPOI_comm]; exact h1, h1⟩

lemma keepLoop_suppressed (R : ℝ) (l : List POI) :
    ∀ kept, ∀ p ∈ kept ++ l, p ∉ keepLoop R kept l →
      ∃ q ∈ keepLoop R kept l, havPOI p q < R := by
  induction l with
  | nil =>
    intro kept p hp hnot
    exact absurd (by simpa [keepLoop] using hp) (by simpa [keepLoop] using hnot)
  | cons x rest ih =>
    intro kept p hp hnot
    by_cases hc : ∃ k ∈ kept, havPOI x k < R
    · rw [keepLoop_cons, if_pos hc] at hnot ⊢
      by_cases hpk : p ∈ kept ++ rest
      · exact ih kept p hpk hnot
      · have hpx : p = x := by
          rcases List.mem_append.mp hp with h | h
          · exact absurd (List.mem_append_left _ h) hpk
          · rcases List.mem_cons.mp h with h2 | h2
            · exact h2
            · exact absurd (List.mem_append_right _ h2) hpk
        obtain ⟨k, hk, hkd⟩ := hc
        exact ⟨k, keepLoop_kept_subset R rest kept k hk, hpx ▸ hkd⟩
    · rw [keepLoop_cons, if_neg hc] at hnot ⊢
      refine ih (kept ++ [x]) p ?_ hnot
      rcases List.mem_append.mp hp with h | h
      · exact List.mem_append_left _ (List.mem_append_left _ h)
      · rcases List.mem_cons.mp h with h2 | h2
        · exact List.mem_append_left _ (List.mem_append_right _ (h2 ▸ List.mem_singleton_self x))
        · exact List.mem_append_right _ h2

lemma mem_insertKey (ks : List String) (u t : String) :
    t ∈ insertKey ks u ↔ t ∈ ks ∨ t = u := by
  unfold insertKey
  split
  next h =>
    constructor
    · exact fun h2 => Or.inl h2
    · rintro (h2 | rfl)
      · exact h2
      · exact h
  next h =>
    simp [List.mem_append]

lemma nodup_insertKey (ks : List String) (u : String) (h : ks.Nodup) :
    (insertKey ks u).Nodup := by
  unfold insertKey
  split
  · exact h
  next hn => simp [List.nodup_append, h, hn]

lemma mem_typeKeys_aux (pois : List POI) :
    ∀ acc t, (t ∈ pois.foldl (fun ks p => insertKey ks p.poi_type) acc ↔
      t ∈ acc ∨ ∃ p ∈ pois, p.poi_type = t) := by
  induction pois with
  | nil => simp
  | cons q rest ih =>
    intro acc t
    rw [List.foldl_cons, ih (insertKey acc q.poi_type) t, mem_insertKey]
    constructor
    · rintro ((h | h) | ⟨p, hp, rfl⟩)
      · exact Or.inl h
      · exact Or.inr ⟨q, List.mem_cons_self _ _, h.symm⟩
      · exact Or.inr ⟨p, List.mem_cons_of_mem _ hp, rfl⟩
    · rintro (h | ⟨p, hp, rfl⟩)
      · exact Or.inl (Or.inl h)
      · rcases List.mem_cons.mp hp with rfl | h2
        · exact Or.inl (Or.inr rfl)
        · exact Or.inr ⟨p, h2, rfl⟩

lemma mem_typeKeys (pois : List POI) (t : String) :
    t ∈ typeKeys pois ↔ ∃ p ∈ pois, p.poi_type = t := by
  unfold typeKeys
  rw [mem_typeKeys_aux pois [] t]
  simp

lemma nodup_typeKeys (pois : List POI) : (typeKeys pois).Nodup := by
  unfold typeKeys
  have : ∀ acc : List String, acc.Nodup →
      (pois.foldl (fun ks p => insertKey ks p.poi_type) acc).Nodup := by
    induction pois with
    | nil => exact fun acc h => h
    | cons q rest ih =>
      intro acc h
      rw [List.foldl_cons]
      exact ih _ (nodup_insertKey _ _ h)
  exact this [] List.nodup_nil

lemma mem_groupOf (pois : List POI) (t : String) (p : POI) :
    p ∈ groupOf pois t ↔ p ∈ pois ∧ p.poi_type = t := by
  unfold groupOf
  rw [List.mem_filter]
  simp

open Classical in
lemma dedupGroup_subset (s : Option PoiSettingsMap) (r : ℚ) (t : String) (g : List POI) :
    ∀ p ∈ dedupGroup s r t g, p ∈ g := by
  intro p hp
  unfold dedupGroup at hp
  split at hp
  · rcases keepLoop_subset _ _ [] p hp with h | h
    · exact absurd h (List.not_mem_nil p)
    · exact (List.perm_insertionSort keyLe g).mem_iff.mp h
  · exact hp

lemma dedupGroup_type (s : Option PoiSettingsMap) (r : ℚ) (t : String) (g : List POI)
    (hg : ∀ p ∈ g, p.poi_type = t) : ∀ p ∈ dedupGroup s r t g, p.poi_type = t :=
  fun p hp => hg p (dedupGroup_subset s r t g p hp)

lemma deduplicate_pois_subset (pois : List POI) (r : ℚ) (s : Option PoiSettingsMap) :
    ∀ p ∈ deduplicate_pois pois r s, p ∈ pois := by
  intro p hp
  unfold deduplicate_pois at hp
  rw [List.mem_flatten] at hp
  obtain ⟨c, hc, hpc⟩ := hp
  rw [List.mem_map] at hc
  obtain ⟨t, _, rfl⟩ := hc
  exact ((mem_groupOf pois t p).mp (dedupGroup_subset _ _ _ _ p hpc)).1

lemma flatten_filter_components (f : String → List POI)
    (hf : ∀ u, ∀ p ∈ f u, p.poi_type = u) (t : String) :
    ∀ ks : List String, ks.Nodup →
      ((ks.map f).map (List.filter (fun p => p.poi_type == t))).flatten =
        if t ∈ ks then f t else [] := by
  intro ks
  induction ks with
  | nil => simp
  | cons u rest ih =>
    intro hnd
    rw [List.nodup_cons] at hnd
    simp only [List.map_cons, List.flatten_cons, ih hnd.2]
    by_cases hut : u = t
    · subst hut
      rw [if_neg hnd.1, if_pos (List.mem_cons_self _ _)]
      rw [List.filter_eq_self.mpr (fun p hp => by simp [hf u p hp]), List.append_nil]
    · rw [List.filter_eq_nil_iff.mpr (fun p hp => by simp [hf u p hp, hut]), List.nil_append]
      by_cases hmem : t ∈ rest
      · rw [if_pos hmem, if_pos (List.mem_cons_of_mem _ hmem)]
      · rw [if_neg hmem, if_neg (by simp [hmem, Ne.symm hut])]

lemma filter_deduplicate_pois (pois : List POI) (r : ℚ) (s : Option PoiSettingsMap) (t : String) :
    (deduplicate_pois pois r s).filter (fun p => p.poi_type == t) =
      if t ∈ typeKeys pois then dedupGroup s r t (groupOf pois t) else [] := by
  unfold deduplicate_pois
  rw [List.filter_flatten]
  exact flatten_filter_components (fun u => dedupGroup s r u (groupOf pois u))
    (fun u p hp => ((mem_groupOf pois u p).mp (dedupGroup_subset _ _ _ _ p hp)).2)
    t (typeKeys pois) (nodup_typeKeys pois)

lemma mem_deduplicate_of_mem_group (pois : List POI) (r : ℚ) (s : Option PoiSettingsMap)
    (t : String) (ht : t ∈ typeKeys pois) (p : POI)
    (hp : p ∈ dedupGroup s r t (groupOf pois t)) : p ∈ deduplicate_pois pois r s := by
  unfold deduplicate_pois
  rw [List.mem_flatten]
  exact ⟨dedupGroup s r t (groupOf pois t), List.mem_map.mpr ⟨t, ht, rfl⟩, hp⟩

open Classical in
lemma mem_sortByPreference (l : List POI) (p : POI) : p ∈ sortByPreference l ↔ p ∈ l := by
  unfold sortByPreference
  exact (List.perm_insertionSort keyLe l).mem_iff

open Classical in
lemma dedup_pair_eval (p q : POI) (r : ℚ) (s : Option PoiSettingsMap)
    (ht : q.poi_type = p.poi_type) (helig : p.poi_type ∈ deduplicate_types)
    (hclose : havPOI p q < ((dedupRadiusFor s r p.poi_type : ℚ) : ℝ)) :
    (keyLe p q → deduplicate_pois [p, q] r s = [p]) ∧
      (¬keyLe p q → deduplicate_pois [p, q] r s = [q]) := by
  have htk : typeKeys [p, q] = [p.poi_type] := by simp [typeKeys, insertKey, ht]
  have hg : groupOf [p, q] p.poi_type = [p, q] := by simp [groupOf, ht]
  have hR2 : havPOI q p < ((dedupRadiusFor s r p.poi_type : ℚ) : ℝ) := by
    rw [havPOI_comm]
    exact hclose
  have hbase : deduplicate_pois [p, q] r s =
      keepLoop ((dedupRadiusFor s r p.poi_type : ℚ) : ℝ) [] (sortByPreference [p, q]) := by
    unfold deduplicate_pois
    rw [htk]
    simp only [List.map_cons, List.map_nil, List.flatten_cons, List.flatten_nil, List.append_nil]
    unfold dedupGroup
    rw [if_pos helig, hg]
  constructor
  · intro hk
    have hsort : sortByPreference [p, q] = [p, q] := by
      unfold sortByPreference
      simp [List.orderedInsert, hk]
    rw [hbase, hsort, keepLoop_cons, if_neg (by simp), keepLoop_cons,
      if_pos ⟨p, by simp, hR2⟩, keepLoop_nil, List.nil_append]
  · intro hk
    have hsort : sortByPreference [p, q] = [q, p] := by
      unfold sortByPreference
      simp [List.orderedInsert, hk]
    rw [hbase, hsort, keepLoop_cons, if_neg (by simp), keepLoop_cons,
      if_pos ⟨q, by simp, hclose⟩, keepLoop_nil, List.nil_append]

lemma dedup_pair_passthrough (p q : POI) (r : ℚ) (s : Option PoiSettingsMap)
    (ht : q.poi_type = p.poi_type) (hnelig : p.poi_type ∉ deduplicate_types) :
    deduplicate_pois [p, q] r s = [p, q] := by
  have htk : typeKeys [p, q] = [p.poi_type] := by simp [typeKeys, insertKey, ht]
  have hg : groupOf [p, q] p.poi_type = [p, q] := by simp [groupOf, ht]
  unfold deduplicate_pois
  rw [htk]
  simp only [List.map_cons, List.map_nil, List.flatten_cons, List.flatten_nil, List.append_nil]
  unfold dedupGroup
  rw [if_neg hnelig, hg]

lemma cond_zero_le (b : Bool) (k : ℕ) : cond b 0 k ≤ k := by cases b <;> simp

lemma dedup_pairwise_radius (pois : List POI) (r : ℚ) (s : Option PoiSettingsMap) (t : String)
    (helig : t ∈ deduplicate_types) :
    ((deduplicate_pois pois r s).filter (fun p => p.poi_type == t)).Pairwise
      (fun a b => ((dedupRadiusFor s r t : ℚ) : ℝ) ≤ havPOI a b ∧
        ((dedupRadiusFor s r t : ℚ) : ℝ) ≤ havPOI b a) := by
  rw [filter_deduplicate_pois]
  by_cases hmem : t ∈ typeKeys pois
  · rw [if_pos hmem]
    unfold dedupGroup
    rw [if_pos helig]
    exact keepLoop_pairwise _ _ [] List.Pairwise.nil
  · rw [if_neg hmem]
    exact List.Pairwise.nil

lemma dedup_suppressor_same_type (pois : List POI) (r : ℚ) (s : Option PoiSettingsMap)
    (p : POI) (hp : p ∈ pois) (hnot : p ∉ deduplicate_pois pois r s) :
    ∃ q, q ∈ deduplicate_pois pois r s ∧ q.poi_type = p.poi_type ∧
      havPOI p q < ((dedupRadiusFor s r p.poi_type : ℚ) : ℝ) := by
  have hmem : p.poi_type ∈ typeKeys pois := (mem_typeKeys pois _).mpr ⟨p, hp, rfl⟩
  by_cases helig : p.poi_type ∈ deduplicate_types
  · have hgroupeq : dedupGroup s r p.poi_type (groupOf pois p.poi_type) =
        keepLoop ((dedupRadiusFor s r p.poi_type : ℚ) : ℝ) []
          (sortByPreference (groupOf pois p.poi_type)) := by
      unfold dedupGroup
      rw [if_pos helig]
    have hpg : p ∈ sortByPreference (groupOf pois p.poi_type) :=
      (mem_sortByPreference _ p).mpr ((mem_groupOf pois _ p).mpr ⟨hp, rfl⟩)
    have hpnotk : p ∉ keepLoop ((dedupRadiusFor s r p.poi_type : ℚ) : ℝ) []
        (sortByPreference (groupOf pois p.poi_type)) := by
      intro hk
      exact hnot (mem_deduplicate_of_mem_group pois r s _ hmem p (hgroupeq ▸ hk))
    obtain ⟨q, hq, hqd⟩ := keepLoop_suppressed _ _ [] p (by simpa using hpg) hpnotk
    refine ⟨q, mem_deduplicate_of_mem_group pois r s _ hmem q (hgroupeq ▸ hq), ?_, hqd⟩
    exact dedupGroup_type s r p.poi_type (groupOf pois p.poi_type)
      (fun x hx => ((mem_groupOf pois _ x).mp hx).2) q (hgroupeq ▸ hq)
  · exfalso
    apply hnot
    apply mem_deduplicate_of_mem_group pois r s p.poi_type hmem
    unfold dedupGroup
    rw [if_neg helig]
    exact (mem_groupOf pois _ p).mpr ⟨hp, rfl⟩

lemma dedup_two_distinct_types (p q : POI) (r : ℚ) (s : Option PoiSettingsMap)
    (hne : p.poi_type ≠ q.poi_type) :
    p ∈ deduplicate_pois [p, q] r s ∧ q ∈ deduplicate_pois [p, q] r s := by
  constructor
  · by_contra hnot
    obtain ⟨q2, hq2, hq2t, _⟩ :=
      dedup_suppressor_same_type [p, q] r s p (by simp) hnot
    rcases List.mem_pair.mp (deduplicate_pois_subset _ _ _ q2 hq2) with rfl | rfl
    · exact hnot hq2
    · exact hne hq2t.symm
  · by_contra hnot
    obtain ⟨q2, hq2, hq2t, _⟩ :=
      dedup_suppressor_same_type [p, q] r s q (by simp) hnot
    rcases List.mem_pair.mp (deduplicate_pois_subset _ _ _ q2 hq2) with rfl | rfl
    · exact hne hq2t
    · exact hnot hq2

/-- A strictly-preferred pair position: `p` strictly precedes `q` in
the sort-key order, so `keyLe p q` holds and `keyLe q p` does not. -/
lemma key_strict (p q : POI)
    (h : p.distance_to_route < q.distance_to_route ∨
      (p.distance_to_route = q.distance_to_route ∧
        (durOf q < durOf p ∨ (durOf p = durOf q ∧ tieBreakNum p < tieBreakNum q)))) :
    keyLe p q ∧ ¬keyLe q p := by
  unfold keyLe
  constructor
  · rcases h with h | ⟨he, h2⟩
    · exact Or.inl h
    · rcases h2 with h2 | ⟨hd, htb⟩
      · exact Or.inr ⟨he, Or.inl h2⟩
      · exact Or.inr ⟨he, Or.inr ⟨hd, le_of_lt htb⟩⟩
  · intro k
    rcases h with h | ⟨he, h2⟩
    · rcases k with k | ⟨ke, _⟩
      · exact absurd (lt_trans h k) (lt_irrefl _)
      · rw [ke] at h
        exact absurd h (lt_irrefl _)
    · rcases k with k | ⟨ke, k2⟩
      · rw [he] at k
        exact absurd k (lt_irrefl _)
      · rcases h2 with h2 | ⟨hd, htb⟩
        · rcases k2 with k2 | ⟨kd, _⟩
          · exact absurd (lt_trans h2 k2) (lt_irrefl _)
          · rw [kd] at h2
            exact absurd h2 (lt_irrefl _)
        · rcases k2 with k2 | ⟨kd, ktb⟩
          · rw [hd] at k2
            exact absurd k2 (lt_irrefl _)
          · exact absurd (lt_of_lt_of_le htb ktb) (lt_irrefl _)

/-- When `p` strictly precedes `q` in the sort-key order, `p` is the
sole survivor of `deduplicate_pois` on the pair in either listing
order. -/
lemma dedup_pair_both (p q : POI) (r : ℚ) (s : Option PoiSettingsMap)
    (ht : q.poi_type = p.poi_type) (helig : p.poi_type ∈ deduplicate_types)
    (hclose : havPOI p q < ((dedupRadiusFor s r p.poi_type : ℚ) : ℝ))
    (h : p.distance_to_route < q.distance_to_route ∨
      (p.distance_to_route = q.distance_to_route ∧
        (durOf q < durOf p ∨ (durOf p = durOf q ∧ tieBreakNum p < tieBreakNum q)))) :
    deduplicate_pois [p, q] r s = [p] ∧ deduplicate_pois [q, p] r s = [p] := by
  obtain ⟨hk, hnk⟩ := key_strict p q h
  have hclose2 : havPOI q p < ((dedupRadiusFor s r q.poi_type : ℚ) : ℝ) := by
    rw [ht, havPOI_comm]
    exact hclose
  exact ⟨(dedup_pair_eval p q r s ht helig hclose).1 hk,
    (dedup_pair_eval q p r s ht.symm (by rw [ht]; exact helig) hclose2).2 hnk⟩

/-- C1 (amended to dedup-eligible categories): for two POIs of one
dedup-eligible category within the category's deduplication radius,
`deduplicate_pois` retains exactly one POI regardless of the order in
which the pair is listed, and the retained one is decided by: smaller
`distance_to_route`; then longer opening-hours duration; then presence
of brand/operator; then presence of wikipedia/wikidata; then presence
of a URL; then presence of a name, in that order. -/
theorem C1_dedup_pair_preference (p q : POI) (r : ℚ) (s : Option PoiSettingsMap)
    (ht : q.poi_type = p.poi_type) (helig : p.poi_type ∈ deduplicate_types)
    (hclose : havPOI p q < ((dedupRadiusFor s r p.poi_type : ℚ) : ℝ)) :
    ((deduplicate_pois [p, q] r s).length = 1 ∧ (deduplicate_pois [q, p] r s).length = 1) ∧
    (p.distance_to_route < q.distance_to_route →
      deduplicate_pois [p, q] r s = [p] ∧ deduplicate_pois [q, p] r s = [p]) ∧
    (p.distance_to_route = q.distance_to_route → durOf q < durOf p →
      deduplicate_pois [p, q] r s = [p] ∧ deduplicate_pois [q, p] r s = [p]) ∧
    (p.distance_to_route = q.distance_to_route → durOf p = durOf q →
      hasBrandOperator p = true → hasBrandOperator q = false →
      deduplicate_pois [p, q] r s = [p] ∧ deduplicate_pois [q, p] r s = [p]) ∧
    (p.distance_to_route = q.distance_to_route → durOf p = durOf q →
      hasBrandOperator p = hasBrandOperator q → hasWikiRef p = true → hasWikiRef q = false →
      deduplicate_pois [p, q] r s = [p] ∧ deduplicate_pois [q, p] r s = [p]) ∧
    (p.distance_to_route = q.distance_to_route → durOf p = durOf q →
      hasBrandOperator p = hasBrandOperator q → hasWikiRef p = hasWikiRef q →
      hasUrl p = true → hasUrl q = false →
      deduplicate_pois [p, q] r s = [p] ∧ deduplicate_pois [q, p] r s = [p]) ∧
    (p.distance_to_route = q.distance_to_route → durOf p = durOf q →
      hasBrandOperator p = hasBrandOperator q → hasWikiRef p = hasWikiRef q →
      hasUrl p = hasUrl q → hasName p = true → hasName q = false →
      deduplicate_pois [p, q] r s = [p] ∧ deduplicate_pois [q, p] r s = [p]) := by
  have hclose2 : havPOI q p < ((dedupRadiusFor s r q.poi_type : ℚ) : ℝ) := by
    rw [ht, havPOI_comm]
    exact hclose
  obtain ⟨hyes, hno⟩ := dedup_pair_eval p q r s ht helig hclose
  obtain ⟨hyes2, hno2⟩ := dedup_pair_eval q p r s ht.symm (by rw [ht]; exact helig) hclose2
  refine ⟨⟨?_, ?_⟩, ?_, ?_, ?_, ?_, ?_, ?_⟩
  · by_cases hk : keyLe p q
    · rw [hyes hk]
      rfl
    · rw [hno hk]
      rfl
  · by_cases hk : keyLe q p
    · rw [hyes2 hk]
      rfl
    · rw [hno2 hk]
      rfl
  · intro h1
    exact dedup_pair_both p q r s ht helig hclose (Or.inl h1)
  · intro h1 h2
    exact dedup_pair_both p q r s ht helig hclose (Or.inr ⟨h1, Or.inl h2⟩)
  · intro h1 h2 hb1 hb2
    refine dedup_pair_both p q r s ht helig hclose (Or.inr ⟨h1, Or.inr ⟨h2, ?_⟩⟩)
    unfold tieBreakNum
    rw [hb1, hb2]
    have c1 := cond_zero_le (hasWikiRef p) 4
    have c2 := cond_zero_le (hasUrl p) 2
    have c3 := cond_zero_le (hasName p) 1
    simp only [cond_true, cond_false]
    omega
  · intro h1 h2 hb hw1 hw2
    refine dedup_pair_both p q r s ht helig hclose (Or.inr ⟨h1, Or.inr ⟨h2, ?_⟩⟩)
    unfold tieBreakNum
    rw [hb, hw1, hw2]
    have c2 := cond_zero_le (hasUrl p) 2
    have c3 := cond_zero_le (hasName p) 1
    simp only [cond_true, cond_false]
    omega
  · intro h1 h2 hb hw hu1 hu2
    refine dedup_pair_both p q r s ht helig hclose (Or.inr ⟨h1, Or.inr ⟨h2, ?_⟩⟩)
    unfold tieBreakNum
    rw [hb, hw, hu1, hu2]
    have c3 := cond_zero_le (hasName p) 1
    simp only [cond_true, cond_false]
    omega
  · intro h1 h2 hb hw hu hn1 hn2
    refine dedup_pair_both p q r s ht helig hclose (Or.inr ⟨h1, Or.inr ⟨h2, ?_⟩⟩)
    unfold tieBreakNum
    rw [hb, hw, hu, hn1, hn2]
    simp only [cond_true, cond_false]
    omega

theorem C1_dedup_pair_preference_witness :
    deduplicate_pois [poiBak1, poiBak2] 1 none = [poiBak1] ∧
      deduplicate_pois [poiBak2, poiBak1] 1 none = [poiBak1] := by
  have h := C1_dedup_pair_preference poiBak1 poiBak2 1 none rfl (by decide)
    (by rw [havPOI_self_coincident poiBak1 poiBak2 rfl rfl]
        norm_num [dedupRadiusFor, lookupSettings])
  exact h.2.1 (by norm_num [poiBak1, poiBak2])

/-- C1 counterexample: two coincident `vending_machines` POIs are both
retained by `deduplicate_pois` although they are the only two members
of their category and lie within the deduplication radius of each
other — the claim as stated (over every category) is false because
`vending_machines` is not dedup-eligible. -/
theorem C1_counterexample :
    poiVend2.poi_type = poiVend1.poi_type ∧
    havPOI poiVend1 poiVend2 < ((dedupRadiusFor none 1 poiVend1.poi_type : ℚ) : ℝ) ∧
    deduplicate_pois [poiVend1, poiVend2] 1 none = [poiVend1, poiVend2] ∧
    (deduplicate_pois [poiVend1, poiVend2] 1 none).length ≠ 1 := by
  have heval : deduplicate_pois [poiVend1, poiVend2] 1 none = [poiVend1, poiVend2] :=
    dedup_pair_passthrough poiVend1 poiVend2 1 none rfl (by decide)
  refine ⟨rfl, ?_, heval, ?_⟩
  · rw [havPOI_self_coincident poiVend1 poiVend2 rfl rfl]
    norm_num [dedupRadiusFor, lookupSettings]
  · rw [heval]
    decide

/-- C2: two POIs of one dedup-eligible category retained together are
never within the category's radius of each other (both directions of
the great-circle distance); a POI is suppressed only by a retained POI
of its own category within the radius; and two POIs of different
categories are both retained regardless of their distance. -/
theorem C2_radius_invariant_and_category_independence
    (pois : List POI) (r : ℚ) (s : Option PoiSettingsMap) :
    (∀ t, t ∈ deduplicate_types →
      ((deduplicate_pois pois r s).filter (fun p => p.poi_type == t)).Pairwise
        (fun a b => ((dedupRadiusFor s r t : ℚ) : ℝ) ≤ havPOI a b ∧
          ((dedupRadiusFor s r t : ℚ) : ℝ) ≤ havPOI b a)) ∧
    (∀ p, p ∈ pois → p ∉ deduplicate_pois pois r s →
      ∃ q, q ∈ deduplicate_pois pois r s ∧ q.poi_type = p.poi_type ∧
        havPOI p q < ((dedupRadiusFor s r p.poi_type : ℚ) : ℝ)) ∧
    (∀ p q : POI, p.poi_type ≠ q.poi_type →
      p ∈ deduplicate_pois [p, q] r s ∧ q ∈ deduplicate_pois [p, q] r s) :=
  ⟨fun t helig => dedup_pairwise_radius pois r s t helig,
   fun p hp hnot => dedup_suppressor_same_type pois r s p hp hnot,
   fun p q hne => dedup_two_distinct_types p q r s hne⟩

theorem C2_radius_invariant_and_category_independence_witness :
    poiBak1 ∈ deduplicate_pois [poiBak1, poiGas1] 1 none ∧
      poiGas1 ∈ deduplicate_pois [poiBak1, poiGas1] 1 none :=
  (C2_radius_invariant_and_category_independence [poiBak1, poiGas1] 1 none).2.2
    poiBak1 poiGas1 (by decide)

/-- C4 (amended): the dedup-eligible set excludes `bicycle_vending` and
`vending_machines`; the POIs of a non-eligible category pass through
`deduplicate_pois` unchanged; and for every eligible category
radius suppression does apply (a within-radius same-category pair
collapses to one POI). -/
theorem C4_dedup_eligibility (pois : List POI) (r : ℚ) (s : Option PoiSettingsMap) (t : String) :
    ("bicycle_vending" ∉ deduplicate_types ∧ "vending_machines" ∉ deduplicate_types) ∧
    (t ∉ deduplicate_types →
      (deduplicate_pois pois r s).filter (fun p => p.poi_type == t) =
        pois.filter (fun p => p.poi_type == t)) ∧
    (t ∈ deduplicate_types → ∀ p q : POI, p.poi_type = t → q.poi_type = t →
      havPOI p q < ((dedupRadiusFor s r t : ℚ) : ℝ) →
      (deduplicate_pois [p, q] r s).length = 1) := by
  refine ⟨⟨by decide, by decide⟩, ?_, ?_⟩
  · intro hne
    rw [filter_deduplicate_pois]
    by_cases hmem : t ∈ typeKeys pois
    · rw [if_pos hmem]
      unfold dedupGroup
      rw [if_neg hne]
      rfl
    · rw [if_neg hmem]
      symm
      rw [List.filter_eq_nil_iff]
      intro p hp hpt
      exact hmem ((mem_typeKeys pois t).mpr ⟨p, hp, by simpa using hpt⟩)
  · intro helig p q hpt hqt hclose
    subst hpt
    obtain ⟨hy, hn⟩ := dedup_pair_eval p q r s (hqt) helig hclose
    by_cases hk : keyLe p q
    · rw [hy hk]
      rfl
    · rw [hn hk]
      rfl

theorem C4_dedup_eligibility_witness :
    ("bicycle_vending" ∉ deduplicate_types) ∧
      (deduplicate_pois [poiBike1, poiGas1] 1 none).filter
          (fun p => p.poi_type == "bicycle_vending") =
        [poiBike1, poiGas1].filter (fun p => p.poi_type == "bicycle_vending") := by
  have h := C4_dedup_eligibility [poiBike1, poiGas1] 1 none "bicycle_vending"
  exact ⟨h.1.1, h.2.1 (by decide)⟩

/-- C4 counterexample: two coincident `bicycle_vending` POIs are passed
through unchanged by `deduplicate_pois` — radius suppression is not
applied to every category. -/
theorem C4_counterexample :
    poiBike2.poi_type = poiBike1.poi_type ∧
    havPOI poiBike1 poiBike2 < ((dedupRadiusFor none 1 poiBike1.poi_type : ℚ) : ℝ) ∧
    deduplicate_pois [poiBike1, poiBike2] 1 none = [poiBike1, poiBike2] := by
  refine ⟨rfl, ?_, ?_⟩
  · rw [havPOI_self_coincident poiBike1 poiBike2 rfl rfl]
    norm_num [dedupRadiusFor, lookupSettings]
  · exact dedup_pair_passthrough poiBike1 poiBike2 1 none rfl (by decide)

/-! ## `filter_pois` invariants (C10) -/

open Classical in
lemma mem_sortByOnRoute (l : List POI) (p : POI) : p ∈ sortByOnRoute l ↔ p ∈ l := by
  unfold sortByOnRoute
  exact (List.perm_insertionSort onRouteLe l).mem_iff

lemma configFor_mem (t : String) (cfg : PoiTypeEntry) (h : configFor t = some cfg) :
    cfg ∈ POI_TYPE_CONFIG := by
  unfold configFor at h
  exact List.mem_of_find?_eq_some h

lemma configFor_default_name_ne (t : String) (cfg : PoiTypeEntry)
    (h : configFor t = some cfg) : cfg.default_name ≠ "" := by
  have hmem := configFor_mem t cfg h
  have hall : ∀ e ∈ POI_TYPE_CONFIG, e.default_name ≠ "" := by decide
  exact hall cfg hmem

lemma processElement_invariants (route : Route) (t dn : String) (maxd : ℚ) (e : OsmElement)
    (p : POI) (hdn : dn ≠ "") (h : processElement route t dn maxd e = some p) :
    p.name ≠ "" ∧ p.distance_to_route ≤ (maxd : ℝ) ∧ p.poi_type = t := by
  unfold processElement at h
  rcases hc : elementCoords e with _ | ⟨la, lo⟩
  · rw [hc] at h
    exact absurd h (by simp)
  · rw [hc] at h
    dsimp only at h
    split at h
    next hle =>
      obtain rfl := (Option.some_inj.mp h).symm
      refine ⟨?_, hle, rfl⟩
      dsimp only
      rcases htag : tagGet e.tags "name" with _ | n
      · exact hdn
      · dsimp only
        split
        next hne => exact hne
        next => exact hdn
    next => exact absurd h (by simp)

/-- C10: every POI constructed by `filter_pois` (for a configured
category, on a non-empty route) carries a non-empty name (the name tag
or the category default) and satisfies the distance filter, so the
name-presence tie-break of the deduplication key cannot distinguish two
POIs of one `filter_pois` result. -/
theorem C10_filter_pois_invariants (route : Route) (data : OverpassData) (t : String)
    (maxd : ℚ) (l : List POI) (hroute : route.points ≠ [])
    (h : filter_pois route data t maxd = .ok l) :
    (∀ p ∈ l, p.name ≠ "" ∧ p.distance_to_route ≤ (maxd : ℝ)) ∧
    (∀ p ∈ l, ∀ q ∈ l, hasName p = hasName q) := by
  unfold filter_pois at h
  rcases hcfg : configFor t with _ | cfg
  · rw [hcfg] at h
    exact absurd h (by simp)
  · rw [hcfg] at h
    dsimp only at h
    have hl : l = sortByOnRoute (data.elements.filterMap
        (processElement route t cfg.default_name maxd)) := (Except.ok.inj h).symm
    subst hl
    have hmain : ∀ p ∈ sortByOnRoute (data.elements.filterMap
        (processElement route t cfg.default_name maxd)),
        p.name ≠ "" ∧ p.distance_to_route ≤ (maxd : ℝ) := by
      intro p hp
      rw [mem_sortByOnRoute] at hp
      obtain ⟨e, _, hpe⟩ := List.mem_filterMap.mp hp
      obtain ⟨h1, h2, _⟩ := processElement_invariants route t cfg.default_name maxd e p
        (configFor_default_name_ne t cfg hcfg) hpe
      exact ⟨h1, h2⟩
    refine ⟨hmain, ?_⟩
    intro p hp q hq
    have hp1 := (hmain p hp).1
    have hq1 := (hmain q hq).1
    unfold hasName
    simp [hp1, hq1]

lemma processElement_elemW :
    processElement routeO "bakeries" "Unnamed Bakery" 1 elemW = some poiBakX := by
  unfold processElement
  rw [show elementCoords elemW = some (0, 0) from by decide]
  dsimp only
  rw [show haversine_distance (⟨0, 0⟩ : RoutePoint)
      (pointAt routeO (find_nearest_route_point_index routeO ⟨0, 0⟩)) = 0 from
    haversineKm_self 0 0]
  rw [if_pos (by norm_num : (0 : ℝ) ≤ ((1 : ℚ) : ℝ))]
  rfl

lemma filter_pois_dataW : filter_pois routeO dataW "bakeries" 1 = .ok [poiBakX] := by
  show Except.ok (sortByOnRoute (dataW.elements.filterMap
      (processElement routeO "bakeries" "Unnamed Bakery" 1))) = _
  have hfm : dataW.elements.filterMap
      (processElement routeO "bakeries" "Unnamed Bakery" 1) = [poiBakX] := by
    show List.filterMap _ [elemW] = [poiBakX]
    rw [List.filterMap_cons, processElement_elemW]
    rfl
  rw [hfm]
  have hsort : sortByOnRoute [poiBakX] = [poiBakX] := by
    unfold sortByOnRoute
    simp
  rw [hsort]

theorem C10_filter_pois_invariants_witness :
    poiBakX.name ≠ "" ∧ poiBakX.distance_to_route ≤ ((1 : ℚ) : ℝ) :=
  (C10_filter_pois_invariants routeO dataW "bakeries" 1 [poiBakX]
    (List.cons_ne_nil _ _) filter_pois_dataW).1 poiBakX (List.mem_singleton_self _)

/-! ## `query_poi_type` retry/failover lemmas (C7) -/

lemma attemptLoop_step_success (respond : ℕ → HttpOutcome) (mr a : ℕ) (last : Option QueryError)
    (d : OverpassData) (hlt : a < mr) (hr : respond a = .success d) :
    attemptLoop respond mr a last = (some d, last, [a]) := by
  rw [attemptLoop.eq_def, if_pos hlt, hr]

lemma attemptLoop_step_retry (respond : ℕ → HttpOutcome) (mr a : ℕ) (last : Option QueryError)
    (hlt : a < mr) (hns : ∀ d, respond a ≠ .success d)
    (hretry : outcomeRetries (respond a) = true ∧ a < mr - 1) :
    attemptLoop respond mr a last =
      ((attemptLoop respond mr (a + 1) (some (outcomeError (respond a)))).1,
       (attemptLoop respond mr (a + 1) (some (outcomeError (respond a)))).2.1,
       a :: (attemptLoop respond mr (a + 1) (some (outcomeError (respond a)))).2.2) := by
  rw [attemptLoop.eq_def, if_pos hlt]
  rcases hr : respond a with d | _ | s | _ | _ | _
  · exact absurd hr (hns d)
  all_goals rw [hr] at hretry
  all_goals dsimp only
  all_goals rw [if_pos hretry]

lemma attemptLoop_step_stop (respond : ℕ → HttpOutcome) (mr a : ℕ) (last : Option QueryError)
    (hlt : a < mr) (hns : ∀ d, respond a ≠ .success d)
    (hstop : ¬(outcomeRetries (respond a) = true ∧ a < mr - 1)) :
    attemptLoop respond mr a last = (none, some (outcomeError (respond a)), [a]) := by
  rw [attemptLoop.eq_def, if_pos hlt]
  rcases hr : respond a with d | _ | s | _ | _ | _
  · exact absurd hr (hns d)
  all_goals rw [hr] at hstop
  all_goals dsimp only
  all_goals rw [if_neg hstop]

lemma attemptLoop_stop (respond : ℕ → HttpOutcome) (mr a : ℕ) (last : Option QueryError)
    (h : ¬a < mr) : attemptLoop respond mr a last = (none, last, []) := by
  rw [attemptLoop.eq_def, if_neg h]

lemma getLast?_cons_ne {α : Type} (a : α) (l : List α) (h : l ≠ []) :
    (a :: l).getLast? = l.getLast? := by
  cases l with
  | nil => exact absurd rfl h
  | cons b t => exact List.getLast?_cons_cons

lemma attemptLoop_trace_bounds (respond : ℕ → HttpOutcome) (mr : ℕ) :
    ∀ a last, ∀ x ∈ (attemptLoop respond mr a last).2.2, a ≤ x ∧ x < mr := by
  intro a last
  induction a, last using attemptLoop.induct respond mr with
  | case1 a last hlt d hd =>
    rw [attemptLoop_step_success respond mr a last d hlt hd]
    intro x hx
    rw [List.mem_singleton] at hx
    subst hx
    exact ⟨le_refl _, hlt⟩
  | case2 a last hlt hns hretry ih =>
    rw [attemptLoop_step_retry respond mr a last hlt (fun d hd => hns d hd) hretry]
    intro x hx
    rcases List.mem_cons.mp hx with rfl | hx2
    · exact ⟨le_refl _, hlt⟩
    · have h2 := ih x hx2
      exact ⟨by omega, h2.2⟩
  | case3 a last hlt hns hstop =>
    rw [attemptLoop_step_stop respond mr a last hlt (fun d hd => hns d hd) hstop]
    intro x hx
    rw [List.mem_singleton] at hx
    subst hx
    exact ⟨le_refl _, hlt⟩
  | case4 a last hlt =>
    rw [attemptLoop_stop respond mr a last hlt]
    intro x hx
    exact absurd hx (List.not_mem_nil x)

lemma attemptLoop_success_mem (respond : ℕ → HttpOutcome) (mr : ℕ) :
    ∀ a last, ∀ x d, x ∈ (attemptLoop respond mr a last).2.2 → respond x = .success d →
      (attemptLoop respond mr a last).1 = some d ∧
        (attemptLoop respond mr a last).2.2.getLast? = some x := by
  intro a last
  induction a, last using attemptLoop.induct respond mr with
  | case1 a last hlt d0 hd0 =>
    intro x d hx hxd
    rw [attemptLoop_step_success respond mr a last d0 hlt hd0] at hx ⊢
    rw [List.mem_singleton] at hx
    subst hx
    rw [hd0] at hxd
    injection hxd with h
    subst h
    exact ⟨rfl, rfl⟩
  | case2 a last hlt hns hretry ih =>
    intro x d hx hxd
    rw [attemptLoop_step_retry respond mr a last hlt (fun d hd => hns d hd) hretry] at hx ⊢
    rcases List.mem_cons.mp hx with rfl | hx2
    · exact absurd hxd (fun hh => hns d hh)
    · obtain ⟨h1, h2⟩ := ih x d hx2 hxd
      refine ⟨h1, ?_⟩
      have hne : (attemptLoop respond mr (a + 1) (some (outcomeError (respond a)))).2.2 ≠ [] := by
        intro he
        rw [he] at hx2
        exact absurd hx2 (List.not_mem_nil x)
      rw [getLast?_cons_ne _ _ hne]
      exact h2
  | case3 a last hlt hns hstop =>
    intro x d hx hxd
    rw [attemptLoop_step_stop respond mr a last hlt (fun d hd => hns d hd) hstop] at hx
    rw [List.mem_singleton] at hx
    subst hx
    exact absurd hxd (fun hh => hns d hh)
  | case4 a last hlt =>
    intro x d hx hxd
    rw [attemptLoop_stop respond mr a last hlt] at hx
    exact absurd hx (List.not_mem_nil x)

lemma attemptLoop_nonretry_last (respond : ℕ → HttpOutcome) (mr : ℕ) :
    ∀ a last, ∀ x, x ∈ (attemptLoop respond mr a last).2.2 →
      outcomeRetries (respond x) = false →
      ∀ y ∈ (attemptLoop respond mr a last).2.2, y ≤ x := by
  intro a last
  induction a, last using attemptLoop.induct respond mr with
  | case1 a last hlt d hd =>
    intro x hx hxr y hy
    rw [attemptLoop_step_success respond mr a last d hlt hd] at hx hy
    rw [List.mem_singleton] at hx hy
    omega
  | case2 a last hlt hns hretry ih =>
    intro x hx hxr y hy
    rw [attemptLoop_step_retry respond mr a last hlt (fun d hd => hns d hd) hretry] at hx hy
    rcases List.mem_cons.mp hx with rfl | hx2
    · rw [hretry.1] at hxr
      exact absurd hxr (by simp)
    · rcases List.mem_cons.mp hy with rfl | hy2
      · have := (attemptLoop_trace_bounds respond mr (y + 1) (some (outcomeError (respond y)))
          x hx2).1
        omega
      · exact ih x hx2 hxr y hy2
  | case3 a last hlt hns hstop =>
    intro x hx hxr y hy
    rw [attemptLoop_step_stop respond mr a last hlt (fun d hd => hns d hd) hstop] at hx hy
    rw [List.mem_singleton] at hx hy
    omega
  | case4 a last hlt =>
    intro x hx
    rw [attemptLoop_stop respond mr a last hlt] at hx
    exact absurd hx (List.not_mem_nil x)

lemma attemptLoop_last_error (respond : ℕ → HttpOutcome) (mr : ℕ) :
    ∀ a last, (attemptLoop respond mr a last).1 = none →
      (attemptLoop respond mr a last).2.1 =
        match (attemptLoop respond mr a last).2.2.getLast? with
        | some x => some (outcomeError (respond x))
        | none => last := by
  intro a last
  induction a, last using attemptLoop.induct respond mr with
  | case1 a last hlt d hd =>
    intro hnone
    rw [attemptLoop_step_success respond mr a last d hlt hd] at hnone
    exact absurd hnone (by simp)
  | case2 a last hlt hns hretry ih =>
    intro hnone
    rw [attemptLoop_step_retry respond mr a last hlt (fun d hd => hns d hd) hretry] at hnone ⊢
    have hrec := ih hnone
    rcases htr : (attemptLoop respond mr (a + 1) (some (outcomeError (respond a)))).2.2
      with _ | ⟨b, t⟩
    · rw [htr] at hrec
      simp only [List.getLast?_nil] at hrec
      simpa using hrec
    · rw [htr] at hrec
      rcases hg : (b :: t).getLast? with _ | z
      · exact absurd hg (by simp)
      · rw [hg] at hrec
        dsimp only
        rw [show ((a :: b :: t : List ℕ)).getLast? = (b :: t).getLast? from List.getLast?_cons_cons,
          hg]
        exact hrec
  | case3 a last hlt hns hstop =>
    intro _
    rw [attemptLoop_step_stop respond mr a last hlt (fun d hd => hns d hd) hstop]
    simp
  | case4 a last hlt =>
    intro _
    rw [attemptLoop_stop respond mr a last hlt]
    simp

lemma attemptLoop_success_origin (respond : ℕ → HttpOutcome) (mr : ℕ) :
    ∀ a last d, (attemptLoop respond mr a last).1 = some d →
      ∃ x ∈ (attemptLoop respond mr a last).2.2, respond x = .success d := by
  intro a last
  induction a, last using attemptLoop.induct respond mr with
  | case1 a last hlt d0 hd0 =>
    intro d hsome
    rw [attemptLoop_step_success respond mr a last d0 hlt hd0] at hsome ⊢
    refine ⟨a, List.mem_singleton_self a, ?_⟩
    rw [hd0]
    injection hsome with h
    rw [h]
  | case2 a last hlt hns hretry ih =>
    intro d hsome
    rw [attemptLoop_step_retry respond mr a last hlt (fun d hd => hns d hd) hretry] at hsome ⊢
    obtain ⟨x, hx, hxd⟩ := ih d hsome
    exact ⟨x, List.mem_cons_of_mem _ hx, hxd⟩
  | case3 a last hlt hns hstop =>
    intro d hsome
    rw [attemptLoop_step_stop respond mr a last hlt (fun d hd => hns d hd) hstop] at hsome
    exact absurd hsome (by simp)
  | case4 a last hlt =>
    intro d hsome
    rw [attemptLoop_stop respond mr a last hlt] at hsome
    exact absurd hsome (by simp)

lemma getLast?_append_right {α : Type} (l1 l2 : List α) (h : l2 ≠ []) :
    (l1 ++ l2).getLast? = l2.getLast? := by
  induction l1 with
  | nil => rfl
  | cons a t ih =>
    rw [List.cons_append, getLast?_cons_ne a (t ++ l2) (by simp [h]), ih]

lemma endpointLoop_nil (respond : String → ℕ → HttpOutcome) (mr : ℕ) (last : Option QueryError) :
    endpointLoop respond mr [] last = (none, last, []) := rfl

lemma endpointLoop_cons (respond : String → ℕ → HttpOutcome) (mr : ℕ) (url : String)
    (rest : List String) (last : Option QueryError) :
    endpointLoop respond mr (url :: rest) last =
      match (attemptLoop (respond url) mr 0 last).1 with
      | some d => (some d, (attemptLoop (respond url) mr 0 last).2.1,
          (attemptLoop (respond url) mr 0 last).2.2.map (fun a => (url, a)))
      | none =>
        ((endpointLoop respond mr rest (attemptLoop (respond url) mr 0 last).2.1).1,
         (endpointLoop respond mr rest (attemptLoop (respond url) mr 0 last).2.1).2.1,
         (attemptLoop (respond url) mr 0 last).2.2.map (fun a => (url, a)) ++
           (endpointLoop respond mr rest (attemptLoop (respond url) mr 0 last).2.1).2.2) := by
  rfl

lemma endpointLoop_trace_urls (respond : String → ℕ → HttpOutcome) (mr : ℕ) :
    ∀ urls last, ∀ ux ∈ (endpointLoop respond mr urls last).2.2, ux.1 ∈ urls := by
  intro urls
  induction urls with
  | nil =>
    intro last ux hux
    rw [endpointLoop_nil] at hux
    exact absurd hux (List.not_mem_nil _)
  | cons url rest ih =>
    intro last ux hux
    rw [endpointLoop_cons] at hux
    rcases hres : (attemptLoop (respond url) mr 0 last).1 with _ | d
    · rw [hres] at hux
      dsimp only at hux
      rcases List.mem_append.mp hux with h | h
      · obtain ⟨a, _, hpa⟩ := List.mem_map.mp h
        rw [← hpa]
        exact List.mem_cons_self _ _
      · exact List.mem_cons_of_mem _ (ih _ ux h)
    · rw [hres] at hux
      dsimp only at hux
      obtain ⟨a, _, hpa⟩ := List.mem_map.mp hux
      rw [← hpa]
      exact List.mem_cons_self _ _

lemma mem_map_pair {url u : String} {x : ℕ} {tr : List ℕ} :
    (u, x) ∈ tr.map (fun a => (url, a)) ↔ u = url ∧ x ∈ tr := by
  rw [List.mem_map]
  constructor
  · rintro ⟨a, ha, hpa⟩
    rw [Prod.mk.injEq] at hpa
    exact ⟨hpa.1.symm, hpa.2 ▸ ha⟩
  · rintro ⟨rfl, hx⟩
    exact ⟨x, hx, rfl⟩

lemma endpointLoop_nonretry (respond : String → ℕ → HttpOutcome) (mr : ℕ) :
    ∀ urls last, urls.Nodup →
      ∀ u x, (u, x) ∈ (endpointLoop respond mr urls last).2.2 →
        outcomeRetries (respond u x) = false →
        ∀ y, (u, y) ∈ (endpointLoop respond mr urls last).2.2 → y ≤ x := by
  intro urls
  induction urls with
  | nil =>
    intro last _ u x hx
    rw [endpointLoop_nil] at hx
    exact absurd hx (List.not_mem_nil _)
  | cons url rest ih =>
    intro last hnd u x hx hxr y hy
    rw [List.nodup_cons] at hnd
    rw [endpointLoop_cons] at hx hy
    rcases hres : (attemptLoop (respond url) mr 0 last).1 with _ | d
    · rw [hres] at hx hy
      dsimp only at hx hy
      rcases List.mem_append.mp hx with hx1 | hx2
      · obtain ⟨huu, hxseg⟩ := mem_map_pair.mp hx1
        rw [huu] at hxr
        rcases List.mem_append.mp hy with hy1 | hy2
        · obtain ⟨_, hyseg⟩ := mem_map_pair.mp hy1
          exact attemptLoop_nonretry_last (respond url) mr 0 last x hxseg hxr y hyseg
        · have hmem := endpointLoop_trace_urls respond mr rest _ (u, y) hy2
          rw [huu] at hmem
          exact absurd hmem hnd.1
      · rcases List.mem_append.mp hy with hy1 | hy2
        · obtain ⟨huu, _⟩ := mem_map_pair.mp hy1
          have hmem := endpointLoop_trace_urls respond mr rest _ (u, x) hx2
          rw [huu] at hmem
          exact absurd hmem hnd.1
        · exact ih _ hnd.2 u x hx2 hxr y hy2
    · rw [hres] at hx hy
      dsimp only at hx hy
      obtain ⟨huu, hxseg⟩ := mem_map_pair.mp hx
      obtain ⟨_, hyseg⟩ := mem_map_pair.mp hy
      rw [huu] at hxr
      exact attemptLoop_nonretry_last (respond url) mr 0 last x hxseg hxr y hyseg

lemma endpointLoop_cons_some (respond : String → ℕ → HttpOutcome) (mr : ℕ) (url : String)
    (rest : List String) (last : Option QueryError) (d : OverpassData)
    (h : (attemptLoop (respond url) mr 0 last).1 = some d) :
    endpointLoop respond mr (url :: rest) last =
      (some d, (attemptLoop (respond url) mr 0 last).2.1,
        (attemptLoop (respond url) mr 0 last).2.2.map (fun a => (url, a))) := by
  rw [endpointLoop_cons, h]

lemma endpointLoop_cons_none (respond : String → ℕ → HttpOutcome) (mr : ℕ) (url : String)
    (rest : List String) (last : Option QueryError)
    (h : (attemptLoop (respond url) mr 0 last).1 = none) :
    endpointLoop respond mr (url :: rest) last =
      ((endpointLoop respond mr rest (attemptLoop (respond url) mr 0 last).2.1).1,
       (endpointLoop respond mr rest (attemptLoop (respond url) mr 0 last).2.1).2.1,
       (attemptLoop (respond url) mr 0 last).2.2.map (fun a => (url, a)) ++
         (endpointLoop respond mr rest (attemptLoop (respond url) mr 0 last).2.1).2.2) := by
  rw [endpointLoop_cons, h]

lemma endpointLoop_success (respond : String → ℕ → HttpOutcome) (mr : ℕ) :
    ∀ urls last u x d, (u, x) ∈ (endpointLoop respond mr urls last).2.2 →
      respond u x = .success d →
      (endpointLoop respond mr urls last).1 = some d ∧
        (endpointLoop respond mr urls last).2.2.getLast? = some (u, x) := by
  intro urls
  induction urls with
  | nil =>
    intro last u x d hx
    rw [endpointLoop_nil] at hx
    exact absurd hx (List.not_mem_nil _)
  | cons url rest ih =>
    intro last u x d hx hxd
    rcases hres : (attemptLoop (respond url) mr 0 last).1 with _ | d0
    · rw [endpointLoop_cons_none respond mr url rest last hres] at hx ⊢
      dsimp only at hx ⊢
      rcases List.mem_append.mp hx with hx1 | hx2
      · obtain ⟨huu, hxseg⟩ := mem_map_pair.mp hx1
        rw [huu] at hxd
        have hsome := (attemptLoop_success_mem (respond url) mr 0 last x d hxseg hxd).1
        rw [hres] at hsome
        exact absurd hsome (by simp)
      · obtain ⟨h1, h2⟩ := ih _ u x d hx2 hxd
        have hne : (endpointLoop respond mr rest
            (attemptLoop (respond url) mr 0 last).2.1).2.2 ≠ [] := by
          intro he
          rw [he] at hx2
          exact absurd hx2 (List.not_mem_nil _)
        rw [getLast?_append_right _ _ hne]
        exact ⟨h1, h2⟩
    · rw [endpointLoop_cons_some respond mr url rest last d0 hres] at hx ⊢
      dsimp only at hx ⊢
      obtain ⟨huu, hxseg⟩ := mem_map_pair.mp hx
      rw [huu] at hxd
      obtain ⟨h1, h2⟩ := attemptLoop_success_mem (respond url) mr 0 last x d hxseg hxd
      rw [hres] at h1
      refine ⟨by rw [← h1], ?_⟩
      rw [List.getLast?_map, h2, huu]
      rfl

lemma endpointLoop_last_error (respond : String → ℕ → HttpOutcome) (mr : ℕ) :
    ∀ urls last, (endpointLoop respond mr urls last).1 = none →
      (endpointLoop respond mr urls last).2.1 =
        match (endpointLoop respond mr urls last).2.2.getLast? with
        | some ux => some (outcomeError (respond ux.1 ux.2))
        | none => last := by
  intro urls
  induction urls with
  | nil =>
    intro last _
    rw [endpointLoop_nil]
    rfl
  | cons url rest ih =>
    intro last hnone
    rcases hres : (attemptLoop (respond url) mr 0 last).1 with _ | d0
    · rw [endpointLoop_cons_none respond mr url rest last hres] at hnone ⊢
      dsimp only at hnone ⊢
      have hrec := ih (attemptLoop (respond url) mr 0 last).2.1 hnone
      have hseg := attemptLoop_last_error (respond url) mr 0 last hres
      by_cases hE : (endpointLoop respond mr rest
          (attemptLoop (respond url) mr 0 last).2.1).2.2 = []
      · rw [hE] at hrec
        simp only [List.getLast?_nil] at hrec
        rw [hE, List.append_nil, List.getLast?_map, hrec, hseg]
        cases hsg : (attemptLoop (respond url) mr 0 last).2.2.getLast? with
        | none => rfl
        | some z => rfl
      · rw [getLast?_append_right _ _ hE]
        obtain ⟨z, hz⟩ : ∃ z, (endpointLoop respond mr rest
            (attemptLoop (respond url) mr 0 last).2.1).2.2.getLast? = some z := by
          cases hgl : (endpointLoop respond mr rest
              (attemptLoop (respond url) mr 0 last).2.1).2.2.getLast? with
          | none => exact absurd (List.getLast?_eq_none_iff.mp hgl) hE
          | some z => exact ⟨z, rfl⟩
        rw [hz] at hrec ⊢
        exact hrec
    · rw [endpointLoop_cons_some respond mr url rest last d0 hres] at hnone
      exact absurd hnone (by simp)

lemma endpointLoop_success_origin (respond : String → ℕ → HttpOutcome) (mr : ℕ) :
    ∀ urls last d, (endpointLoop respond mr urls last).1 = some d →
      ∃ ux ∈ (endpointLoop respond mr urls last).2.2, respond ux.1 ux.2 = .success d := by
  intro urls
  induction urls with
  | nil =>
    intro last d hd
    rw [endpointLoop_nil] at hd
    exact absurd hd (by simp)
  | cons url rest ih =>
    intro last d hd
    rcases hres : (attemptLoop (respond url) mr 0 last).1 with _ | d0
    · rw [endpointLoop_cons_none respond mr url rest last hres] at hd ⊢
      dsimp only at hd ⊢
      obtain ⟨ux, hux, hsu⟩ := ih _ d hd
      exact ⟨ux, List.mem_append_right _ hux, hsu⟩
    · rw [endpointLoop_cons_some respond mr url rest last d0 hres] at hd ⊢
      dsimp only at hd ⊢
      obtain ⟨x, hx, hsx⟩ := attemptLoop_success_origin (respond url) mr 0 last d0 hres
      refine ⟨(url, x), List.mem_map.mpr ⟨x, hx, rfl⟩, ?_⟩
      rw [hsx]
      injection hd with h
      rw [h]

lemma attemptLoop_trace_ne_nil (respond : ℕ → HttpOutcome) (mr a : ℕ) (last : Option QueryError)
    (hlt : a < mr) : (attemptLoop respond mr a last).2.2 ≠ [] := by
  rcases hr : respond a with d | _ | s | _ | _ | _
  · rw [attemptLoop_step_success respond mr a last d hlt hr]
    simp
  all_goals {
    by_cases hretry : outcomeRetries (respond a) = true ∧ a < mr - 1
    · rw [attemptLoop_step_retry respond mr a last hlt
        (by rw [hr]; intro d h; exact absurd h (by simp)) hretry]
      simp
    · rw [attemptLoop_step_stop respond mr a last hlt
        (by rw [hr]; intro d h; exact absurd h (by simp)) hretry]
      simp
  }

lemma endpointLoop_trace_ne_nil (respond : String → ℕ → HttpOutcome) (mr : ℕ) (url : String)
    (rest : List String) (last : Option QueryError) (hmr : 1 ≤ mr) :
    (endpointLoop respond mr (url :: rest) last).2.2 ≠ [] := by
  have hne := attemptLoop_trace_ne_nil (respond url) mr 0 last (by omega)
  rcases hres : (attemptLoop (respond url) mr 0 last).1 with _ | d0
  · rw [endpointLoop_cons_none respond mr url rest last hres]
    simp [hne]
  · rw [endpointLoop_cons_some respond mr url rest last d0 hres]
    simp [hne]

lemma query_poi_type_valid (respond : String → ℕ → HttpOutcome) (t : String) (mr : ℕ)
    (hv : t ∈ poiTypeKeys) :
    query_poi_type respond t mr =
      (match (endpointLoop respond mr overpass_urls none).1 with
       | some d => Except.ok d
       | none =>
          Except.error ((endpointLoop respond mr overpass_urls none).2.1.getD .noAttempts),
       (endpointLoop respond mr overpass_urls none).2.2) := by
  unfold query_poi_type
  rw [if_pos hv]
  dsimp only
  rcases h : (endpointLoop respond mr overpass_urls none).1 with _ | d
  · rfl
  · rfl

/-- C7: for a configured category, a bad-request (HTTP 400) or
unparsable-JSON outcome at some endpoint/attempt is never followed by
another attempt at the same endpoint; a successful response is the
last consultation of the whole run and becomes the result; a failed
run raises the classification of the last consulted outcome (the
fallback connection error when nothing was consulted); and when every
endpoint always answers HTTP 429 the call fails with the rate-limit
error, which is connection-class. -/
theorem C7_query_retry_failover (respond : String → ℕ → HttpOutcome) (t : String) (mr : ℕ)
    (hv : t ∈ poiTypeKeys) :
    (∀ u a, (u, a) ∈ (query_poi_type respond t mr).2 →
      (respond u a = .httpError 400 ∨ respond u a = .invalidJsonBody) →
      ∀ a2, a < a2 → (u, a2) ∉ (query_poi_type respond t mr).2) ∧
    (∀ u a d, (u, a) ∈ (query_poi_type respond t mr).2 → respond u a = .success d →
      (query_poi_type respond t mr).1 = .ok d ∧
        (query_poi_type respond t mr).2.getLast? = some (u, a)) ∧
    (∀ err, (query_poi_type respond t mr).1 = .error err →
      match (query_poi_type respond t mr).2.getLast? with
      | some ux => err = outcomeError (respond ux.1 ux.2)
      | none => err = .noAttempts) ∧
    ((∀ u a, respond u a = .httpError 429) → 1 ≤ mr →
      (query_poi_type respond t mr).1 = .error .rateLimited ∧
        QueryError.isConnectionClass .rateLimited = true) := by
  rw [query_poi_type_valid respond t mr hv]
  have hnd : overpass_urls.Nodup := by decide
  refine ⟨?_, ?_, ?_, ?_⟩
  · intro u a hmem hbad a2 ha2 hmem2
    dsimp only at hmem hmem2
    have hret : outcomeRetries (respond u a) = false := by
      rcases hbad with h | h <;> rw [h] <;> rfl
    have := endpointLoop_nonretry respond mr overpass_urls none hnd u a hmem hret a2 hmem2
    omega
  · intro u a d hmem hsucc
    dsimp only at hmem ⊢
    obtain ⟨h1, h2⟩ := endpointLoop_success respond mr overpass_urls none u a d hmem hsucc
    rw [h1]
    exact ⟨rfl, h2⟩
  · intro err herr
    dsimp only at herr ⊢
    rcases hE : (endpointLoop respond mr overpass_urls none).1 with _ | d
    · have hlast := endpointLoop_last_error respond mr overpass_urls none hE
      rw [hE] at herr
      dsimp only at herr
      injection herr with herr2
      cases hg : (endpointLoop respond mr overpass_urls none).2.2.getLast? with
      | none =>
        rw [hg] at hlast
        dsimp only at hlast
        rw [← herr2, hlast]
        rfl
      | some ux =>
        rw [hg] at hlast
        dsimp only at hlast
        rw [← herr2, hlast]
        rfl
    · rw [hE] at herr
      exact absurd herr (by simp)
  · intro h429 hmr
    have hnone : (endpointLoop respond mr overpass_urls none).1 = none := by
      rcases hE : (endpointLoop respond mr overpass_urls none).1 with _ | d
      · rfl
      · obtain ⟨ux, _, hsu⟩ := endpointLoop_success_origin respond mr overpass_urls none d hE
        rw [h429 ux.1 ux.2] at hsu
        exact absurd hsu (by simp)
    have htne : (endpointLoop respond mr overpass_urls none).2.2 ≠ [] := by
      show (endpointLoop respond mr ("https://overpass-api.de/api/interpreter" ::
        ["http://overpass-api.de/api/interpreter",
         "https://overpass.kumi.systems/api/interpreter"]) none).2.2 ≠ []
      exact endpointLoop_trace_ne_nil respond mr _ _ none hmr
    obtain ⟨ux, hux⟩ : ∃ ux, (endpointLoop respond mr overpass_urls none).2.2.getLast? =
        some ux := by
      cases hg : (endpointLoop respond mr overpass_urls none).2.2.getLast? with
      | none => exact absurd (List.getLast?_eq_none_iff.mp hg) htne
      | some ux => exact ⟨ux, rfl⟩
    have hlast := endpointLoop_last_error respond mr overpass_urls none hnone
    rw [hux] at hlast
    dsimp only at hlast
    rw [h429 ux.1 ux.2] at hlast
    dsimp only
    rw [hnone, hlast]
    exact ⟨rfl, rfl⟩

theorem C7_query_retry_failover_witness :
    (query_poi_type oracle429 "bakeries" 3).1 = .error .rateLimited ∧
      QueryError.isConnectionClass .rateLimited = true :=
  (C7_query_retry_failover oracle429 "bakeries" 3 (by decide)).2.2.2
    (fun _ _ => rfl) (by norm_num)

/-! ## `query_all_poi_types` lemmas (C5, C6) -/

lemma acqLoop_pois (respond : String → String → ℕ → HttpOutcome) (route : Route)
    (maxDist dedupRadius : ℚ) (settings : Option PoiSettingsMap) (total : ℕ) :
    ∀ ts i, (acqLoop respond route maxDist dedupRadius settings total ts i).1 =
      (ts.map (fun t =>
        (categoryPOIs respond route maxDist dedupRadius settings t).getD [])).flatten := by
  intro ts
  induction ts with
  | nil =>
    intro i
    rfl
  | cons t rest ih =>
    intro i
    conv_lhs => rw [acqLoop.eq_def]
    dsimp only
    rcases hc : categoryPOIs respond route maxDist dedupRadius settings t with _ | ded
    · dsimp only
      rw [ih (i + 1)]
      simp [hc]
    · dsimp only
      rw [ih (i + 1)]
      simp [hc]

lemma flatten_skip_failed (f : String → Option (List POI)) (c : String) (hc : f c = none) :
    ∀ ts : List String,
      (ts.map (fun t => (f t).getD [])).flatten =
        ((ts.filter (fun t => t != c)).map (fun t => (f t).getD [])).flatten := by
  intro ts
  induction ts with
  | nil => rfl
  | cons t rest ih =>
    by_cases ht : t = c
    · subst ht
      rw [List.map_cons, List.flatten_cons, hc]
      simp only [Option.getD_none, List.nil_append]
      rw [ih]
      congr 2
      simp [List.filter_cons]
    · rw [List.map_cons, List.flatten_cons, ih]
      rw [show (t :: rest).filter (fun t2 => t2 != c) =
        t :: rest.filter (fun t2 => t2 != c) from by simp [List.filter_cons, ht]]
      rw [List.map_cons, List.flatten_cons]

open Classical in
lemma sortByOnRoute_sorted (l : List POI) : (sortByOnRoute l).Pairwise onRouteLe := by
  unfold sortByOnRoute
  exact @List.sorted_insertionSort POI onRouteLe _
    ⟨fun a b => le_total a.distance_on_route b.distance_on_route⟩
    ⟨fun a b c h1 h2 => le_trans h1 h2⟩ l

lemma query_all_valid_sel (respond : String → String → ℕ → HttpOutcome) (route : Route)
    (maxd dedupR : ℚ) (settings : Option PoiSettingsMap) (sel : List String)
    (hne : sel ≠ []) (hval : ∀ t2 ∈ sel, t2 ∈ poiTypeKeys) :
    query_all_poi_types respond route maxd (some sel) dedupR settings =
      (.ok (sortByOnRoute ((sel.map (fun t =>
          (categoryPOIs respond route maxd dedupR settings t).getD [])).flatten)),
       (acqLoop respond route maxd dedupR settings sel.length sel 1).2) := by
  have hF : sel.isEmpty = false := by
    cases sel with
    | nil => exact absurd rfl hne
    | cons a t => rfl
  have hinv : sel.filter (fun t => !(poiTypeKeys.contains t)) = [] := by
    rw [List.filter_eq_nil_iff]
    intro t ht
    have hcontains : poiTypeKeys.contains t = true := List.elem_eq_true_of_mem (hval t ht)
    simp [hcontains, hval t ht]
  unfold query_all_poi_types
  dsimp only
  rw [if_neg (by rw [hF]; exact Bool.false_ne_true)]
  show (if (List.filter (fun t => !poiTypeKeys.contains t) sel).isEmpty = true then
      (Except.ok (sortByOnRoute (acqLoop respond route maxd dedupR settings sel.length sel 1).1),
       (acqLoop respond route maxd dedupR settings sel.length sel 1).2)
    else (Except.error (List.filter (fun t => !poiTypeKeys.contains t) sel),
      ([] : List AcqEvent))) = _
  rw [hinv, if_pos (show (([] : List String).isEmpty) = true from rfl), acqLoop_pois]

/-- C5: if, for a non-empty valid selection, exactly one category's
query/parse fails (after exhausting all endpoints) and every other
selected category succeeds, the acquisition still returns a result:
the union of the successful categories' deduplicated batches, sorted
ascending by distance along the route. -/
theorem C5_one_category_failure (respond : String → String → ℕ → HttpOutcome) (route : Route)
    (maxd dedupR : ℚ) (settings : Option PoiSettingsMap) (ts : List String) (c : String)
    (hne : ts ≠ []) (hval : ∀ t ∈ ts, t ∈ poiTypeKeys) (hc : c ∈ ts)
    (hfail : categoryPOIs respond route maxd dedupR settings c = none)
    (hok : ∀ t ∈ ts, t ≠ c → categoryPOIs respond route maxd dedupR settings t ≠ none) :
    (query_all_poi_types respond route maxd (some ts) dedupR settings).1 =
      .ok (sortByOnRoute (((ts.filter (fun t => t != c)).map (fun t =>
        (categoryPOIs respond route maxd dedupR settings t).getD [])).flatten)) ∧
    (sortByOnRoute (((ts.filter (fun t => t != c)).map (fun t =>
      (categoryPOIs respond route maxd dedupR settings t).getD [])).flatten)).Pairwise
        onRouteLe := by
  constructor
  · rw [query_all_valid_sel respond route maxd dedupR settings ts hne hval]
    dsimp only
    rw [flatten_skip_failed (categoryPOIs respond route maxd dedupR settings) c hfail ts]
  · exact sortByOnRoute_sorted _

/-- C6: a non-empty caller-supplied selection containing an unknown
category name makes `query_all_poi_types` fail validation before
anything else happens: the result is the validation error carrying the
unknown names and the event log is empty (no progress callback, no
network consultation, no batch). -/
theorem C6_unknown_category_validation (respond : String → String → ℕ → HttpOutcome)
    (route : Route) (maxd dedupR : ℚ) (settings : Option PoiSettingsMap) (sel : List String)
    (hne : sel ≠ []) (hbad : ∃ t ∈ sel, t ∉ poiTypeKeys) :
    query_all_poi_types respond route maxd (some sel) dedupR settings =
      (.error (sel.filter (fun t => !(poiTypeKeys.contains t))), []) := by
  have hF : sel.isEmpty = false := by
    cases sel with
    | nil => exact absurd rfl hne
    | cons a t => rfl
  have hinvne : sel.filter (fun t => !(poiTypeKeys.contains t)) ≠ [] := by
    obtain ⟨t, ht, hnot⟩ := hbad
    have hmem : t ∈ sel.filter (fun t => !(poiTypeKeys.contains t)) := by
      rw [List.mem_filter]
      refine ⟨ht, ?_⟩
      simp only [Bool.not_eq_true']
      rcases hcon : poiTypeKeys.contains t with _ | _
      · rfl
      · exact absurd (List.mem_of_elem_eq_true hcon) hnot
    exact List.ne_nil_of_mem hmem
  have hFI : (sel.filter (fun t => !(poiTypeKeys.contains t))).isEmpty = false := by
    rcases hfl : sel.filter (fun t => !(poiTypeKeys.contains t)) with _ | ⟨a, t⟩
    · exact absurd hfl hinvne
    · rfl
  unfold query_all_poi_types
  dsimp only
  rw [if_neg (by rw [hF]; exact Bool.false_ne_true)]
  show (if (List.filter (fun t => !poiTypeKeys.contains t) sel).isEmpty = true then
      (Except.ok (sortByOnRoute (acqLoop respond route maxd dedupR settings sel.length sel 1).1),
       (acqLoop respond route maxd dedupR settings sel.length sel 1).2)
    else (Except.error (List.filter (fun t => !poiTypeKeys.contains t) sel),
      ([] : List AcqEvent))) = _
  rw [if_neg (by rw [hFI]; exact Bool.false_ne_true)]

theorem C6_unknown_category_validation_witness :
    query_all_poi_types oracleW routeO 1 (some ["bogus"]) 1 none = (.error ["bogus"], []) := by
  have h := C6_unknown_category_validation oracleW routeO 1 1 none ["bogus"]
    (List.cons_ne_nil _ _) ⟨"bogus", List.mem_singleton_self _, by decide⟩
  rw [h]
  rfl

lemma oracleW_gas (url : String) (a : ℕ) : oracleW "gas_stations" url a = .httpError 400 := by
  show (if ("gas_stations" : String) = "bakeries" then HttpOutcome.success dataW
    else .httpError 400) = _
  rw [if_neg (by decide)]

lemma outcomeError_400 : outcomeError (.httpError 400) = .badRequest := by decide

lemma attempt_gas (url : String) (last : Option QueryError) :
    attemptLoop (oracleW "gas_stations" url) 3 0 last = (none, some .badRequest, [0]) := by
  rw [attemptLoop_step_stop (oracleW "gas_stations" url) 3 0 last (by norm_num)
    (fun d hd => by rw [oracleW_gas] at hd; exact absurd hd (by simp))
    (by rw [oracleW_gas]; decide)]
  rw [oracleW_gas, outcomeError_400]

lemma endpoint_gas_none (urls : List String) :
    ∀ last, (endpointLoop (oracleW "gas_stations") 3 urls last).1 = none := by
  induction urls with
  | nil =>
    intro last
    rw [endpointLoop_nil]
  | cons url rest ih =>
    intro last
    rw [endpointLoop_cons_none (oracleW "gas_stations") 3 url rest last (by rw [attempt_gas])]
    exact ih _

lemma categoryPOIs_gas_none : categoryPOIs oracleW routeO 1 1 none "gas_stations" = none := by
  unfold categoryPOIs
  rw [query_poi_type_valid (oracleW "gas_stations") "gas_stations" 3 (by decide)]
  dsimp only
  rw [endpoint_gas_none overpass_urls none]

lemma oracleW_bak (url : String) (a : ℕ) : oracleW "bakeries" url a = .success dataW := by
  show (if ("bakeries" : String) = "bakeries" then HttpOutcome.success dataW
    else .httpError 400) = _
  rw [if_pos rfl]

lemma attempt_bak (url : String) (last : Option QueryError) :
    attemptLoop (oracleW "bakeries" url) 3 0 last = (some dataW, last, [0]) :=
  attemptLoop_step_success (oracleW "bakeries" url) 3 0 last dataW (by norm_num)
    (oracleW_bak url 0)

lemma endpoint_bak : (endpointLoop (oracleW "bakeries") 3 overpass_urls none).1 = some dataW := by
  unfold overpass_urls
  rw [endpointLoop_cons_some (oracleW "bakeries") 3 _ _ none dataW (by rw [attempt_bak])]

lemma query_bak : (query_poi_type (oracleW "bakeries") "bakeries" 3).1 = .ok dataW := by
  rw [query_poi_type_valid (oracleW "bakeries") "bakeries" 3 (by decide)]
  dsimp only
  rw [endpoint_bak]

lemma dedup_singleton (p : POI) (r : ℚ) (s : Option PoiSettingsMap) :
    deduplicate_pois [p] r s = [p] := by
  have hkeys : typeKeys [p] = [p.poi_type] := by simp [typeKeys, insertKey]
  have hgroup : groupOf [p] p.poi_type = [p] := by simp [groupOf]
  unfold deduplicate_pois
  rw [hkeys]
  simp only [List.map_cons, List.map_nil, List.flatten_cons, List.flatten_nil, List.append_nil]
  rw [hgroup]
  unfold dedupGroup
  split
  · have hsort : sortByPreference [p] = [p] := rfl
    rw [hsort, keepLoop_cons, if_neg (by simp), keepLoop_nil, List.nil_append]
  · rfl

lemma categoryPOIs_bak_eval :
    categoryPOIs oracleW routeO 1 1 none "bakeries" = some [poiBakX] := by
  unfold categoryPOIs
  rw [query_bak]
  dsimp only
  have hmd : maxDistanceFor none 1 "bakeries" = (1 : ℚ) := rfl
  rw [hmd, filter_pois_dataW]
  dsimp only
  rw [dedup_singleton]

lemma sortByOnRoute_singleton (p : POI) : sortByOnRoute [p] = [p] := rfl

theorem C5_one_category_failure_witness :
    (query_all_poi_types oracleW routeO 1 (some ["bakeries", "gas_stations"]) 1 none).1 =
      .ok [poiBakX] := by
  have h := C5_one_category_failure oracleW routeO 1 1 none ["bakeries", "gas_stations"]
    "gas_stations" (by decide) (by decide) (by decide) categoryPOIs_gas_none
    (by
      intro t ht hne
      rw [List.mem_cons, List.mem_singleton] at ht
      rcases ht with rfl | rfl
      · rw [categoryPOIs_bak_eval]
        exact Option.some_ne_none _
      · exact absurd rfl hne)
  rw [h.1]
  have hfilter : (["bakeries", "gas_stations"].filter (fun t => t != "gas_stations")) =
      ["bakeries"] := by decide
  rw [hfilter]
  simp only [List.map_cons, List.map_nil, List.flatten_cons, List.flatten_nil, List.append_nil]
  rw [categoryPOIs_bak_eval]
  show Except.ok (sortByOnRoute [poiBakX]) = _
  rw [sortByOnRoute_singleton]
